/-
Verification of the dataset-api query gateway against its specification.

Each section embeds one part of the Python source as executable Lean
definitions and proves (or refutes) the corresponding specification claims.

  * Executor pagination clamp   (celine/dataset/api/dataset_query/executor.py)
  * Row-filter TTL cache        (src/celine/dataset/api/dataset_query/row_filters/cache.py)
  * Disclosure levels and the access gates
                                (celine/dataset/security/{disclosure,governance}.py and
                                 src/celine/dataset/security/governance.py)
  * Textual semicolon guard     (celine/dataset/api/dataset_query/parser.py)
  * SQL validator pipeline      (celine/dataset/api/dataset_query/parser.py)
  * Row-filter AST rewriter     (src/celine/dataset/api/dataset_query/row_filters/apply.py)

Machine integers are modelled as Int (Python ints are unbounded), time as
Int seconds, and Python dicts as insertion-ordered association lists.
-/
import Mathlib

deriving instance DecidableEq for Except

namespace DatasetApi

/-- ASCII lower-casing, the behaviour of Python `str.lower()` on the ASCII
identifiers compared by this code base. -/
def pyLower (s : String) : String := String.mk (s.data.map Char.toLower)

/-! ## Executor pagination clamp

Source: `celine/dataset/api/dataset_query/executor.py`. -/

def DEFAULT_LIMIT : Int := 100

def MAX_LIMIT : Int := 10000

/-- `_clamp_limit` from executor.py:
`if limit <= 0: return DEFAULT_LIMIT` then `return min(limit, MAX_LIMIT)`. -/
def clamp_limit (limit : Int) : Int :=
  if limit ≤ 0 then DEFAULT_LIMIT else min limit MAX_LIMIT

/-- The pagination values actually used by `execute_query`:
`limit = _clamp_limit(limit)` and `offset = max(offset, 0)`. -/
def executor_pagination (limit offset : Int) : Int × Int :=
  (clamp_limit limit, max offset 0)

/-- The clamp formula claimed by the spec:
`limit <- min(max(limit, 100), 10_000)`. -/
def spec_clamp_formula (limit : Int) : Int :=
  min (max limit DEFAULT_LIMIT) MAX_LIMIT

/-! ## Row-filter TTL cache

Source: `src/celine/dataset/api/dataset_query/row_filters/cache.py`.
The store is a Python dict keyed by strings; we model it as an
insertion-ordered association list with unique keys.  Wall-clock time is an
explicit argument of each operation. -/

structure CacheEntry (V : Type) where
  value : V
  expiresAt : Int
deriving Repr, DecidableEq

/-- The dict `self._store`, in insertion order. -/
abbrev CacheStore (V : Type) := List (String × CacheEntry V)

structure TTLCache (V : Type) where
  maxsize : Nat
  store : CacheStore V
deriving Repr

def TTLCache.empty (V : Type) (maxsize : Nat) : TTLCache V :=
  { maxsize := maxsize, store := [] }

/-- Python dict assignment `store[key] = e`: update in place when the key is
present (keeping its position), otherwise append. -/
def dictSet {V : Type} (st : CacheStore V) (key : String) (e : CacheEntry V) :
    CacheStore V :=
  if st.any (fun kv => kv.1 = key) then
    st.map (fun kv => if kv.1 = key then (key, e) else kv)
  else
    st ++ [(key, e)]

/-- `TTLCache.get`: expired entries are dropped on read. -/
def TTLCache.get {V : Type} (c : TTLCache V) (key : String) (now : Int) :
    Option V × TTLCache V :=
  match c.store.find? (fun kv => kv.1 = key) with
  | none => (none, c)
  | some kv =>
    if kv.2.expiresAt ≤ now then
      (none, { c with store := c.store.filter (fun kv => ¬ kv.1 = key) })
    else
      (some kv.2.value, c)

/-- `TTLCache.set`: a non-positive ttl is a no-op; at capacity, first drop
expired entries, then (if still at capacity) pop the first key of the dict.
(When `maxsize = 0` and the store is empty the Python code would raise
`StopIteration` on `next(iter(...))`; the branch is unreachable for
`maxsize >= 1`, which is the regime of the claim.) -/
def TTLCache.set {V : Type} (c : TTLCache V) (key : String) (v : V)
    (ttlSeconds : Int) (now : Int) : TTLCache V :=
  if ttlSeconds ≤ 0 then c
  else
    let st :=
      if c.maxsize ≤ c.store.length then
        let st1 := c.store.filter (fun kv => now < kv.2.expiresAt)
        if c.maxsize ≤ st1.length then st1.tail else st1
      else c.store
    { c with store := dictSet st key ⟨v, now + ttlSeconds⟩ }

/-- A client-visible cache operation, with the wall-clock time at which it
runs. -/
inductive CacheOp (V : Type) where
  | get (key : String) (now : Int)
  | set (key : String) (v : V) (ttlSeconds : Int) (now : Int)

def TTLCache.runOp {V : Type} (c : TTLCache V) : CacheOp V → TTLCache V
  | .get key now => ((c.get key now).2 : TTLCache V)
  | .set key v ttl now => c.set key v ttl now

def TTLCache.runOps {V : Type} (c : TTLCache V) (ops : List (CacheOp V)) :
    TTLCache V :=
  ops.foldl TTLCache.runOp c

/-! ### Cache lemmas -/

theorem dictSet_length {V : Type} (st : CacheStore V) (key : String)
    (e : CacheEntry V) : (dictSet st key e).length ≤ st.length + 1 := by
  unfold dictSet
  split
  · simp
  · simp

theorem TTLCache.runOp_maxsize {V : Type} (c : TTLCache V) (op : CacheOp V) :
    (c.runOp op).maxsize = c.maxsize := by
  cases op with
  | get key now =>
    simp only [TTLCache.runOp, TTLCache.get]
    rcases h : c.store.find? (fun kv => kv.1 = key) with _ | kv
    · simp [h]
    · simp only [h]
      split <;> rfl
  | set key v ttl now =>
    simp only [TTLCache.runOp, TTLCache.set]
    split <;> rfl

theorem TTLCache.set_length_le {V : Type} (c : TTLCache V) (key : String)
    (v : V) (ttl now : Int) (hmax : 1 ≤ c.maxsize)
    (hlen : c.store.length ≤ c.maxsize) :
    (c.set key v ttl now).store.length ≤ c.maxsize := by
  unfold TTLCache.set
  split
  · exact hlen
  · simp only []
    split
    · rename_i hfull
      set st1 := c.store.filter (fun kv => now < kv.2.expiresAt) with hst1
      have hst1len : st1.length ≤ c.store.length := List.length_filter_le _ _
      split
      · rename_i hstill
        calc (dictSet st1.tail key ⟨v, now + ttl⟩).length
            ≤ st1.tail.length + 1 := dictSet_length _ _ _
          _ = st1.length - 1 + 1 := by simp [List.length_tail]
          _ ≤ c.maxsize := by omega
      · rename_i hnotfull
        calc (dictSet st1 key ⟨v, now + ttl⟩).length
            ≤ st1.length + 1 := dictSet_length _ _ _
          _ ≤ c.maxsize := by omega
    · rename_i hnotfull
      calc (dictSet c.store key ⟨v, now + ttl⟩).length
          ≤ c.store.length + 1 := dictSet_length _ _ _
        _ ≤ c.maxsize := by omega

theorem TTLCache.runOp_length_le {V : Type} (c : TTLCache V) (op : CacheOp V)
    (hmax : 1 ≤ c.maxsize) (hlen : c.store.length ≤ c.maxsize) :
    (c.runOp op).store.length ≤ c.maxsize := by
  cases op with
  | get key now =>
    simp only [TTLCache.runOp, TTLCache.get]
    rcases h : c.store.find? (fun kv => kv.1 = key) with _ | kv
    · simpa [h] using hlen
    · simp only [h]
      split
      · exact le_trans (List.length_filter_le _ _) hlen
      · simpa using hlen
  | set key v ttl now => exact c.set_length_le key v ttl now hmax hlen

theorem TTLCache.runOps_length_le {V : Type} (ops : List (CacheOp V))
    (c : TTLCache V) (hmax : 1 ≤ c.maxsize)
    (hlen : c.store.length ≤ c.maxsize) :
    (c.runOps ops).store.length ≤ (c.runOps ops).maxsize ∧
      (c.runOps ops).maxsize = c.maxsize := by
  induction ops generalizing c with
  | nil => exact ⟨hlen, rfl⟩
  | cons op ops ih =>
    have hm := c.runOp_maxsize op
    have := ih (c.runOp op) (by rw [hm]; exact hmax)
      (by rw [hm]; exact c.runOp_length_le op hmax hlen)
    simpa [TTLCache.runOps, hm] using this

/-! ## Claim theorems: pagination clamp (C8) and cache bound (C9) -/

/-- C8 (counterexample): the spec formula
`limit <- min(max(limit, 100), 10_000)` disagrees with the executor for the
positive limit 5: the executor keeps 5, the formula would return 100. -/
theorem clamp_limit_spec_formula_fails_at_five :
    executor_pagination 5 0 = (5, 0) ∧ spec_clamp_formula 5 = 100 ∧
      (executor_pagination 5 0).1 ≠ spec_clamp_formula 5 := by
  refine ⟨by decide, by decide, by decide⟩

/-- C8 (amended): the executor uses `limit' = 100` when `limit <= 0`,
`limit' = limit` when `0 < limit <= 10000`, `limit' = 10000` when
`limit > 10000` (so positive limits below 100 are kept as-is), and
`offset' = max(offset, 0)`; the limit clamp is idempotent. -/
theorem clamp_limit_characterisation (limit offset : Int) :
    (limit ≤ 0 → executor_pagination limit offset = (100, max offset 0)) ∧
    (0 < limit → limit ≤ 10000 → (executor_pagination limit offset).1 = limit) ∧
    (10000 < limit → (executor_pagination limit offset).1 = 10000) ∧
    (offset < 0 → (executor_pagination limit offset).2 = 0) ∧
    (0 ≤ offset → (executor_pagination limit offset).2 = offset) ∧
    clamp_limit (clamp_limit limit) = clamp_limit limit := by
  refine ⟨?_, ?_, ?_, ?_, ?_, ?_⟩
  · intro h
    simp [executor_pagination, clamp_limit, DEFAULT_LIMIT, h]
  · intro h1 h2
    simp [executor_pagination, clamp_limit, MAX_LIMIT,
      show ¬ limit ≤ 0 by omega, min_eq_left h2]
  · intro h1
    simp [executor_pagination, clamp_limit, MAX_LIMIT,
      show ¬ limit ≤ 0 by omega, min_eq_right (le_of_lt h1)]
  · intro h1
    simp [executor_pagination, max_eq_right (le_of_lt h1)]
  · intro h1
    simp [executor_pagination, max_eq_left h1]
  · by_cases h : limit ≤ 0
    · simp [clamp_limit, h, DEFAULT_LIMIT, MAX_LIMIT]
    · have h1 : ¬ min limit MAX_LIMIT ≤ 0 := by
        simp only [MAX_LIMIT] at *
        omega
      simp [clamp_limit, h, h1, min_assoc]

/-- C8 witness: the amended characterisation applied at `limit = -5`,
`offset = -3`. -/
theorem clamp_limit_characterisation_witness :
    executor_pagination (-5) (-3) = (100, 0) := by
  have h := (clamp_limit_characterisation (-5) (-3)).1 (by decide)
  simpa using h

/-- C9: starting from an empty row-filter plan cache with `maxsize >= 1`,
no sequence of `get`/`set` operations can push the number of stored entries
above `maxsize`; moreover any single `set` on a cache within its bound stays
within the bound (the eviction path frees a slot before inserting). -/
theorem ttl_cache_never_exceeds_maxsize {V : Type} (maxsize : Nat)
    (hmax : 1 ≤ maxsize) :
    (∀ ops : List (CacheOp V),
        ((TTLCache.empty V maxsize).runOps ops).store.length ≤ maxsize) ∧
    (∀ (c : TTLCache V) (key : String) (v : V) (ttl now : Int),
        c.maxsize = maxsize → c.store.length ≤ maxsize →
        (c.set key v ttl now).store.length ≤ maxsize) := by
  constructor
  · intro ops
    have h := TTLCache.runOps_length_le ops (TTLCache.empty V maxsize)
      (by simpa [TTLCache.empty] using hmax) (by simp [TTLCache.empty])
    have hm : ((TTLCache.empty V maxsize).runOps ops).maxsize = maxsize := by
      simpa [TTLCache.empty] using h.2
    calc ((TTLCache.empty V maxsize).runOps ops).store.length
        ≤ ((TTLCache.empty V maxsize).runOps ops).maxsize := h.1
      _ = maxsize := hm
  · intro c key v ttl now hcm hlen
    have := c.set_length_le key v ttl now (by omega) (by omega)
    omega

/-- C9 witness: the bound instantiated with `maxsize = 2` and a concrete
operation sequence that overflows twice. -/
theorem ttl_cache_never_exceeds_maxsize_witness :
    ((TTLCache.empty Nat 2).runOps
        [.set "a" 1 10 0, .set "b" 2 10 0, .set "c" 3 10 0,
         .set "d" 4 10 0, .get "c" 1]).store.length ≤ 2 := by
  exact (ttl_cache_never_exceeds_maxsize 2 (by decide)).1 _

/-! ## Disclosure levels and the access gates

Sources: `celine/dataset/security/disclosure.py` (identical in both source
trees, modulo the `DisclosureLevel`/`AccessLevel` naming),
`celine/dataset/security/governance.py` (OPA HTTP client variant) and
`src/celine/dataset/security/governance.py` (in-process policy engine
variant).  The policy engine itself is external; it enters the model as an
oracle function, and every evaluation call is recorded in a log so that
"the engine is never invoked" is the statement `log = []`. -/

inductive AccessLevel where
  | OPEN
  | INTERNAL
  | RESTRICTED
deriving Repr, DecidableEq

/-- `DisclosureLevel.from_value` / `AccessLevel.from_value`:
`if not value: return cls.OPEN` (Python: both `None` and the empty string
are falsy), then `cls(value.lower())` which raises `ValueError` on an
unknown level. -/
def AccessLevel.fromValue : Option String → Except String AccessLevel
  | none => .ok .OPEN
  | some v =>
    if v = "" then .ok .OPEN
    else
      match pyLower v with
      | "open" => .ok .OPEN
      | "internal" => .ok .INTERNAL
      | "restricted" => .ok .RESTRICTED
      | _ => .error ("Invalid disclosure level: " ++ v)

structure DisclosurePolicy where
  requires_auth : Bool
  requires_policy : Bool
deriving Repr, DecidableEq

/-- `DISCLOSURE_MATRIX` / `ACCESS_LEVEL_MATRIX` (identical in both trees). -/
def DISCLOSURE_MATRIX : AccessLevel → DisclosurePolicy
  | .OPEN => ⟨false, false⟩
  | .INTERNAL => ⟨true, true⟩
  | .RESTRICTED => ⟨true, true⟩

/-- A JSON-ish claim value, as far as the governance code inspects it. -/
inductive ClaimVal where
  | str (s : String)
  | list (l : List String)
  | num (n : Int)
deriving Repr, DecidableEq

/-- The fields of `AuthenticatedUser` that the governance code reads. -/
structure AuthenticatedUser where
  sub : String
  claims : List (String × ClaimVal)
deriving Repr, DecidableEq

/-- The fields of `entry.lineage` that the governance code reads
(`lineage.get("namespace")` and `lineage.get("facets", {}).get("governance")`). -/
structure Lineage where
  namespaceVal : Option String
  governance : Option (List (String × String))
deriving Repr, DecidableEq

/-- The fields of the `DatasetEntry` ORM record used by the access gates. -/
structure DatasetEntry where
  dataset_id : String
  access_level : Option String
  backend_type : String
  expose : Bool
  lineage : Option Lineage
deriving Repr, DecidableEq

/-- A FastAPI `HTTPException(status_code, detail)`. -/
structure HttpError where
  status : Nat
  detail : String
deriving Repr, DecidableEq

/-! ### OPA variant (`celine/dataset/security/governance.py`) -/

structure OpaSettings where
  opa_enabled : Bool
deriving Repr, DecidableEq

/-- One `opa.evaluate(dataset=entry, user=user)` call, as recorded in the
evaluation log. -/
structure OpaCall where
  dataset_id : String
  user_sub : Option String
deriving Repr, DecidableEq

/-- `enforce_dataset_access` of the OPA variant.  The pair's second
component logs every policy evaluation performed during the call.
`_get_opa_client()` returns `None` exactly when OPA is disabled (when
enabled it constructs a client), modelled by the `opa` binding. -/
def enforce_dataset_access_opa (entry : DatasetEntry)
    (user : Option AuthenticatedUser) (settings : OpaSettings)
    (opaEval : DatasetEntry → Option AuthenticatedUser → Bool) :
    Except HttpError Unit × List OpaCall :=
  match AccessLevel.fromValue entry.access_level with
  | .error msg => (.error ⟨500, msg⟩, [])
  | .ok level =>
    let policy := DISCLOSURE_MATRIX level
    if policy.requires_auth && user.isNone then
      (.error ⟨401, "Authentication required for this dataset"⟩, [])
    else if policy.requires_policy then
      let opa : Option (DatasetEntry → Option AuthenticatedUser → Bool) :=
        if settings.opa_enabled then some opaEval else none
      if !settings.opa_enabled then (.ok (), [])
      else
        match opa with
        | none => (.error ⟨503, "Policy engine unavailable"⟩, [])
        | some ev =>
          let call : OpaCall := ⟨entry.dataset_id, user.map (·.sub)⟩
          if ev entry user then (.ok (), [call])
          else (.error ⟨403, "Access denied by policy"⟩, [call])
    else (.ok (), [])

/-! ### In-process policy engine variant
(`src/celine/dataset/security/governance.py`) -/

inductive SubjectType where
  | user
  | service
  | anonymous
deriving Repr, DecidableEq

structure Subject where
  id : String
  type : SubjectType
  groups : List String
  scopes : List String
  claims : List (String × ClaimVal)
deriving Repr, DecidableEq

/-- `Subject.anonymous()` from the celine SDK (consumed as a black box;
only its distinctness from user/service subjects matters here). -/
def Subject.anonymousSubject : Subject :=
  ⟨"anonymous", .anonymous, [], [], []⟩

def claimsGet (claims : List (String × ClaimVal)) (key : String) :
    Option ClaimVal :=
  (claims.find? (fun kv => kv.1 = key)).map (·.2)

/-- `_is_service_account`: `claims.get("scopes", None) is not None`. -/
def is_service_account (claims : List (String × ClaimVal)) : Bool :=
  (claimsGet claims "scopes").isSome

/-- `_build_subject_from_user`.  Python `str.split()` splits on whitespace
runs and drops empty fragments. -/
def build_subject_from_user : Option AuthenticatedUser → Subject
  | none => Subject.anonymousSubject
  | some u =>
    let scopes : List String :=
      match claimsGet u.claims "scope" with
      | some (.str s) => (s.split (fun c => c = ' ')).filter (fun x => x ≠ "")
      | some (.list l) => l
      | some (.num _) => []
      | none => []
    let groups : List String :=
      match claimsGet u.claims "groups" with
      | some (.list l) => l
      | _ => []
    let stype : SubjectType :=
      if is_service_account u.claims then .service else .user
    ⟨u.sub, stype, groups, scopes, u.claims⟩

structure SdkSettings where
  policies_check_enabled : Bool
  policies_package : String
deriving Repr, DecidableEq

/-- The `resource.attributes` dict built by the SDK variant: optional keys
of a Python dict are modelled as `Option` fields. -/
structure ResourceAttributes where
  access_level : Option String
  backend_type : String
  namespaceAttr : Option String
  governance : Option (List (String × String))
deriving Repr, DecidableEq

structure PolicyInput where
  subject : Subject
  resource_id : String
  resource_attributes : ResourceAttributes
  action_name : String
  env_timestamp : Int
  env_source_service : String
deriving Repr, DecidableEq

structure PolicyDecision where
  allowed : Bool
  reason : Option String
  cached : Bool
  policy : Option String
deriving Repr, DecidableEq

/-- Outcome of `engine.evaluate_decision`: a decision, a
`PolicyEngineError`, or any other exception. -/
inductive EvalOutcome where
  | ok (d : PolicyDecision)
  | engineError (msg : String)
  | otherError (msg : String)

def buildResourceAttributes (entry : DatasetEntry) : ResourceAttributes :=
  let namespaceAttr : Option String :=
    match entry.lineage with
    | some l =>
      match l.namespaceVal with
      | some ns => if ns ≠ "" then some ns else none
      | none => none
    | none => none
  let gov : Option (List (String × String)) :=
    match entry.lineage with
    | some l =>
      match l.governance with
      | some g =>
        if g ≠ [] then some (g.filter (fun kv => ¬ kv.1.startsWith "_"))
        else none
      | none => none
    | none => none
  ⟨entry.access_level, entry.backend_type, namespaceAttr, gov⟩

def buildPolicyInput (entry : DatasetEntry) (user : Option AuthenticatedUser)
    (now : Int) : PolicyInput :=
  ⟨build_subject_from_user user, entry.dataset_id,
    buildResourceAttributes entry, "read", now, "dataset-api"⟩

/-- `enforce_dataset_access` of the in-process policy engine variant.
`_get_policy_engine()` returns `None` when policy checks are disabled or
when engine initialisation failed (`engineInit = none`).  Note that a
`deny` decision raises `HTTPException(403)` *inside* the surrounding
`try` block, whose blanket `except Exception` converts it into a
`503 "Policy evaluation failed"`.  The second component logs every
`evaluate_decision` call. -/
def enforce_dataset_access_sdk (entry : DatasetEntry)
    (user : Option AuthenticatedUser) (settings : SdkSettings)
    (engineInit : Option (String → PolicyInput → EvalOutcome)) (now : Int) :
    Except HttpError Unit × List PolicyInput :=
  match AccessLevel.fromValue entry.access_level with
  | .error _ => (.error ⟨500, "Invalid dataset access level configuration"⟩, [])
  | .ok level =>
    let policy := DISCLOSURE_MATRIX level
    if policy.requires_auth && user.isNone then
      (.error ⟨401, "Authentication required for this dataset"⟩, [])
    else if policy.requires_policy then
      let engine := if settings.policies_check_enabled then engineInit else none
      if !settings.policies_check_enabled then (.ok (), [])
      else
        match engine with
        | none => (.error ⟨503, "Policy engine unavailable"⟩, [])
        | some evalDecision =>
          let input := buildPolicyInput entry user now
          match evalDecision settings.policies_package input with
          | .ok d =>
            if !d.allowed then (.error ⟨503, "Policy evaluation failed"⟩, [input])
            else (.ok (), [input])
          | .engineError _ => (.error ⟨503, "Policy evaluation failed"⟩, [input])
          | .otherError _ => (.error ⟨503, "Policy evaluation failed"⟩, [input])
    else (.ok (), [])

/-! ## Textual semicolon guard

Source: `has_unquoted_semicolon` in
`celine/dataset/api/dataset_query/parser.py`, which runs on the raw SQL
string before any parsing (`parse_sql_query` raises
`400 "Semicolons are not allowed"` when it returns true). -/

def squote : Char := Char.ofNat 39

/-- Semantics of `SAFE_LITERAL.match` at an opening quote: given the
characters after the opening quote, the number of characters the regex
`'([^']|'')*'` consumes beyond the opening quote (content plus closing
quote), following the greedy/backtracking behaviour of the Python `re`
engine (prefer treating a doubled quote as an escape, fall back to closing
at its first quote). -/
def literalEnd : List Char → Option Nat
  | [] => none
  | [c] => if c = squote then some 1 else none
  | c :: c2 :: rest =>
    if c = squote then
      if c2 = squote then
        match literalEnd rest with
        | some n => some (n + 2)
        | none => some 1
      else some 1
    else
      match literalEnd (c2 :: rest) with
      | some n => some (n + 1)
      | none => none

/-- `litRemainder l` holds when `l` is exactly the remainder of a complete
single-quoted literal after its opening quote: content drawn from
`([^'] | '')*` followed by the closing quote. -/
def litRemainder : List Char → Bool
  | [] => false
  | [c] => c = squote
  | c :: c2 :: rest =>
    if c = squote then (c2 = squote) && litRemainder rest
    else litRemainder (c2 :: rest)

theorem literalEnd_pos (l : List Char) :
    ∀ n, literalEnd l = some n → 1 ≤ n := by
  induction l using literalEnd.induct with
  | case1 => intro n h; simp [literalEnd] at h
  | case2 => intro n h; simp [literalEnd] at h; omega
  | case3 c hc => intro n h; simp [literalEnd, hc] at h
  | case4 rest n' hrest ih =>
    intro n h
    simp [literalEnd, hrest] at h
    omega
  | case5 rest hrest ih =>
    intro n h
    simp [literalEnd, hrest] at h
    omega
  | case6 c2 rest hc2 =>
    intro n h
    simp [literalEnd, hc2] at h
    omega
  | case7 c c2 rest hc n' hsome ih =>
    intro n h
    simp [literalEnd, hc, hsome] at h
    omega
  | case8 c c2 rest hc hnone ih =>
    intro n h
    simp [literalEnd, hc, hnone] at h

theorem literalEnd_le (l : List Char) :
    ∀ n, literalEnd l = some n → n ≤ l.length := by
  induction l using literalEnd.induct with
  | case1 => intro n h; simp [literalEnd] at h
  | case2 => intro n h; simp [literalEnd] at h; simp; omega
  | case3 c hc => intro n h; simp [literalEnd, hc] at h
  | case4 rest n' hrest ih =>
    intro n h
    simp [literalEnd, hrest] at h
    have := ih n' hrest
    simp
    omega
  | case5 rest hrest ih =>
    intro n h
    simp [literalEnd, hrest] at h
    simp
    omega
  | case6 c2 rest hc2 =>
    intro n h
    simp [literalEnd, hc2] at h
    simp
    omega
  | case7 c c2 rest hc n' hsome ih =>
    intro n h
    simp [literalEnd, hc, hsome] at h
    have := ih n' hsome
    simp at this ⊢
    omega
  | case8 c c2 rest hc hnone ih =>
    intro n h
    simp [literalEnd, hc, hnone] at h

theorem literalEnd_sound (l : List Char) :
    ∀ n, literalEnd l = some n → litRemainder (l.take n) = true := by
  induction l using literalEnd.induct with
  | case1 => intro n h; simp [literalEnd] at h
  | case2 =>
    intro n h
    simp [literalEnd] at h
    subst h
    simp [litRemainder]
  | case3 c hc => intro n h; simp [literalEnd, hc] at h
  | case4 rest n' hrest ih =>
    intro n h
    simp [literalEnd, hrest] at h
    subst h
    simpa [List.take_succ_cons, litRemainder] using ih n' hrest
  | case5 rest hrest ih =>
    intro n h
    simp [literalEnd, hrest] at h
    subst h
    simp [List.take_succ_cons, litRemainder]
  | case6 c2 rest hc2 =>
    intro n h
    simp [literalEnd, hc2] at h
    subst h
    simp [List.take_succ_cons, litRemainder]
  | case7 c c2 rest hc n' hsome ih =>
    intro n h
    simp [literalEnd, hc, hsome] at h
    subst h
    obtain ⟨k, rfl⟩ : ∃ k, n' = k + 1 := by
      have := literalEnd_pos (c2 :: rest) n' hsome
      exact ⟨n' - 1, by omega⟩
    have hres := ih (k + 1) hsome
    simp [List.take_succ_cons] at hres ⊢
    simpa [litRemainder, hc] using hres
  | case8 c c2 rest hc hnone ih =>
    intro n h
    simp [literalEnd, hc, hnone] at h

theorem literalEnd_none_max (l : List Char) :
    literalEnd l = none → ∀ m, m ≤ l.length → litRemainder (l.take m) = false := by
  induction l using literalEnd.induct with
  | case1 =>
    intro _ m hm
    have hm0 : m = 0 := by simpa using hm
    subst hm0
    simp [litRemainder]
  | case2 => intro h; simp [literalEnd] at h
  | case3 c hc =>
    intro _ m hm
    simp at hm
    interval_cases m
    · simp [litRemainder]
    · simp [litRemainder, hc]
  | case4 rest n' hrest ih => intro h; simp [literalEnd, hrest] at h
  | case5 rest hrest ih => intro h; simp [literalEnd, hrest] at h
  | case6 c2 rest hc2 => intro h; simp [literalEnd, hc2] at h
  | case7 c c2 rest hc n' hsome ih => intro h; simp [literalEnd, hc, hsome] at h
  | case8 c c2 rest hc hnone ih =>
    intro _ m hm
    match m with
    | 0 => simp [litRemainder]
    | 1 => simp [List.take_succ_cons, litRemainder, hc]
    | k + 2 =>
      have hk : k + 1 ≤ (c2 :: rest).length := by simp at hm ⊢; omega
      have := ih hnone (k + 1) hk
      simpa [List.take_succ_cons, litRemainder, hc] using this

theorem literalEnd_max (l : List Char) :
    ∀ n, literalEnd l = some n →
      ∀ m, m ≤ l.length → litRemainder (l.take m) = true → m ≤ n := by
  induction l using literalEnd.induct with
  | case1 => intro n h; simp [literalEnd] at h
  | case2 =>
    intro n h m hm hp
    simp [literalEnd] at h
    simp at hm
    omega
  | case3 c hc => intro n h; simp [literalEnd, hc] at h
  | case4 rest n' hrest ih =>
    intro n h m hm hp
    simp [literalEnd, hrest] at h
    match m with
    | 0 => omega
    | 1 => omega
    | k + 2 =>
      simp [List.take_succ_cons, litRemainder] at hp
      have hk : k ≤ rest.length := by simp at hm; omega
      have := ih n' hrest k hk hp
      omega
  | case5 rest hrest ih =>
    intro n h m hm hp
    simp [literalEnd, hrest] at h
    match m with
    | 0 => omega
    | 1 => omega
    | k + 2 =>
      simp [List.take_succ_cons, litRemainder] at hp
      have hk : k ≤ rest.length := by simp at hm; omega
      have := literalEnd_none_max rest hrest k hk
      simp [this] at hp
  | case6 c2 rest hc2 =>
    intro n h m hm hp
    simp [literalEnd, hc2] at h
    match m with
    | 0 => omega
    | 1 => omega
    | k + 2 =>
      simp [List.take_succ_cons, litRemainder, hc2] at hp
  | case7 c c2 rest hc n' hsome ih =>
    intro n h m hm hp
    simp [literalEnd, hc, hsome] at h
    match m with
    | 0 => omega
    | k + 1 =>
      rcases hk : (c2 :: rest).take k with _ | ⟨d, ds⟩
      · -- take k of (c2 :: rest) empty means k = 0, so l.take 1 = [c]
        have hk0 : k = 0 := by
          by_contra hne
          have : (c2 :: rest).take k ≠ [] := by
            simp [List.take_eq_nil_iff]
            omega
          exact this hk
        subst hk0
        simp [List.take_succ_cons, litRemainder, hc] at hp
      · have hkk : k ≤ (c2 :: rest).length := by simp at hm ⊢; omega
        have hstep : litRemainder ((c2 :: rest).take k) = true := by
          have : litRemainder (c :: (c2 :: rest).take k) = true := by
            simpa [List.take_succ_cons] using hp
          rw [hk] at this ⊢
          simpa [litRemainder, hc] using this
        have := ih n' hsome k hkk hstep
        omega
  | case8 c c2 rest hc hnone ih =>
    intro n h
    simp [literalEnd, hc, hnone] at h

/-- Largest `m < k` satisfying `p`. -/
def largestBelow (p : Nat → Bool) : Nat → Option Nat
  | 0 => none
  | k + 1 => if p k then some k else largestBelow p k

theorem largestBelow_eq_some (p : Nat → Bool) (k n : Nat) (hn : n < k)
    (hp : p n = true) (hmax : ∀ m, m < k → p m = true → m ≤ n) :
    largestBelow p k = some n := by
  induction k with
  | zero => omega
  | succ k ih =>
    by_cases hk : p k = true
    · have : k ≤ n := hmax k (by omega) hk
      have : n = k := by omega
      subst this
      simp [largestBelow, hk]
    · simp at hk
      have hn' : n < k := by
        rcases Nat.lt_succ_iff_lt_or_eq.mp hn with h | h
        · exact h
        · subst h; simp [hk] at hp
      simp [largestBelow, hk]
      exact ih hn' (fun m hm => hmax m (by omega))

theorem largestBelow_eq_none (p : Nat → Bool) (k : Nat)
    (h : ∀ m, m < k → p m = false) : largestBelow p k = none := by
  induction k with
  | zero => rfl
  | succ k ih =>
    simp [largestBelow, h k (by omega)]
    exact ih (fun m hm => h m (by omega))

/-- The longest complete single-quoted literal starting at an opening
quote, phrased independently of the regex engine: the largest `n` such
that the next `n` characters form `content ++ [closing quote]` with
content drawn from `([^'] | '')*`. -/
def largestLitRemainder (l : List Char) : Option Nat :=
  largestBelow (fun m => litRemainder (l.take m)) (l.length + 1)

theorem literalEnd_eq_largest (l : List Char) :
    literalEnd l = largestLitRemainder l := by
  rcases h : literalEnd l with _ | n
  · rw [largestLitRemainder, largestBelow_eq_none]
    intro m hm
    exact literalEnd_none_max l h m (by omega)
  · rw [largestLitRemainder, largestBelow_eq_some]
    · have := literalEnd_le l n h
      omega
    · exact literalEnd_sound l n h
    · intro m hm hp
      exact literalEnd_max l n h m (by omega) hp



/-- `has_unquoted_semicolon` from parser.py: scan the input; at each index
try `SAFE_LITERAL.match` and skip the matched literal; otherwise a `;` is
fatal, any other character is skipped.  The `while idx < len(s)` loop
advances by at least one character per iteration, so `s.length` iterations
suffice; that budget is the first (structural) argument. -/
def scanLoop : Nat → List Char → Bool
  | _, [] => false
  | 0, _ :: _ => false
  | fuel + 1, c :: rest =>
    if c = squote then
      match literalEnd rest with
      | some n => scanLoop fuel (rest.drop n)
      | none => scanLoop fuel rest
    else if c = ';' then true
    else scanLoop fuel rest

def has_unquoted_semicolon (l : List Char) : Bool := scanLoop l.length l

/-- The semicolon guard as the specification words it: scan the input,
skip characters inside single-quoted literals (with doubled-quote escape,
i.e. skip the longest complete literal starting at an opening quote), and
reject on any `;` encountered outside them. -/
def specScanLoop : Nat → List Char → Bool
  | _, [] => false
  | 0, _ :: _ => false
  | fuel + 1, c :: rest =>
    if c = ';' then true
    else if c = squote then
      match largestLitRemainder rest with
      | some n => specScanLoop fuel (rest.drop n)
      | none => specScanLoop fuel rest
    else specScanLoop fuel rest

def spec_unquoted_semicolon (l : List Char) : Bool := specScanLoop l.length l

theorem scanLoop_eq_spec (fuel : Nat) :
    ∀ l, scanLoop fuel l = specScanLoop fuel l := by
  induction fuel with
  | zero => intro l; cases l <;> rfl
  | succ fuel ih =>
    intro l
    cases l with
    | nil => rfl
    | cons c rest =>
      by_cases hq : c = squote
      · have hs : ¬ c = ';' := by subst hq; decide
        simp only [scanLoop, specScanLoop, hq, hs, if_true, if_false,
          ite_true, ite_false, if_pos, if_neg, not_false_iff]
        rw [← literalEnd_eq_largest]
        cases literalEnd rest with
        | none => exact ih rest
        | some n => exact ih (rest.drop n)
      · by_cases hs : c = ';'
        · subst hs
          have hqs : ¬(';' = squote) := by decide
          simp [scanLoop, specScanLoop, hqs]
        · simp only [scanLoop, specScanLoop, hq, hs, if_false, ite_false,
            if_neg, not_false_iff]
          exact ih rest

/-- C1: the textual semicolon guard fires exactly on semicolons outside
single-quoted literals.  `spec_unquoted_semicolon` formalises the
specification reading (scan; skip the characters of each complete
single-quoted literal, doubled quotes being escapes; any other `;` is
fatal); the guard agrees with it on every input.  In particular a query
whose only semicolons sit inside quoted literals passes, and an unquoted
`;` is fatal. -/
theorem semicolon_guard_iff_outside_literal :
    (∀ s : List Char, has_unquoted_semicolon s = spec_unquoted_semicolon s) ∧
    has_unquoted_semicolon
        (String.data "SELECT * FROM t WHERE city = 'Mi;lan'") = false ∧
    has_unquoted_semicolon
        (String.data "SELECT * FROM t; DROP TABLE u") = true :=
  ⟨fun s => scanLoop_eq_spec s.length s, by decide, by decide⟩

/-! ## Claim theorems: access gate (C5, C6) -/

/-- C6: for any dataset entry whose access level parses to `internal` or
`restricted` and a null user, both access-gate variants raise
`401 "Authentication required for this dataset"` and the policy engine is
never invoked (the evaluation log is empty, for every engine oracle and
every settings value). -/
theorem auth_required_before_policy (entry : DatasetEntry)
    (level : AccessLevel)
    (hparse : AccessLevel.fromValue entry.access_level = .ok level)
    (hlevel : level = .INTERNAL ∨ level = .RESTRICTED)
    (oset : OpaSettings)
    (opaEval : DatasetEntry → Option AuthenticatedUser → Bool)
    (sset : SdkSettings)
    (engineInit : Option (String → PolicyInput → EvalOutcome)) (now : Int) :
    enforce_dataset_access_sdk entry none sset engineInit now =
        (.error ⟨401, "Authentication required for this dataset"⟩, []) ∧
    enforce_dataset_access_opa entry none oset opaEval =
        (.error ⟨401, "Authentication required for this dataset"⟩, []) := by
  rcases hlevel with h | h <;> subst h <;>
    simp [enforce_dataset_access_sdk, enforce_dataset_access_opa, hparse,
      DISCLOSURE_MATRIX]

/-- C6 witness: a concrete `internal` dataset queried anonymously, with a
policy engine that would allow everything — it is still never consulted. -/
theorem auth_required_before_policy_witness :
    enforce_dataset_access_sdk ⟨"ds_int", some "internal", "postgres", true, none⟩
        none ⟨true, "celine.dataset"⟩ none 0 =
      (.error ⟨401, "Authentication required for this dataset"⟩, []) ∧
    enforce_dataset_access_opa ⟨"ds_int", some "internal", "postgres", true, none⟩
        none ⟨true⟩ (fun _ _ => true) =
      (.error ⟨401, "Authentication required for this dataset"⟩, []) :=
  auth_required_before_policy ⟨"ds_int", some "internal", "postgres", true, none⟩
    .INTERNAL (by decide) (Or.inl rfl) ⟨true⟩ (fun _ _ => true)
    ⟨true, "celine.dataset"⟩ none 0

/-- C5 (counterexample): a dataset entry with an absent `access_level` is
*not* rejected with a 500 — `from_value` silently defaults it to `OPEN` and
both gates admit an anonymous request without consulting the (denying)
policy engine. -/
theorem missing_access_level_treated_as_open :
    AccessLevel.fromValue none = .ok .OPEN ∧
    enforce_dataset_access_opa ⟨"ds_nolevel", none, "postgres", true, none⟩ none
        ⟨true⟩ (fun _ _ => false) = (.ok (), []) ∧
    enforce_dataset_access_sdk ⟨"ds_nolevel", none, "postgres", true, none⟩ none
        ⟨true, "celine.dataset"⟩ none 0 = (.ok (), []) :=
  ⟨by decide, by decide, by decide⟩

/-- C5 (amended): only a *present but unparseable* access level fails the
gate with a 500 configuration error (before any policy evaluation); a
missing or empty `access_level` is silently defaulted to `open`. -/
theorem unparseable_level_500_missing_defaults_open
    (entry : DatasetEntry) (msg : String)
    (hbad : AccessLevel.fromValue entry.access_level = .error msg)
    (user : Option AuthenticatedUser) (oset : OpaSettings)
    (opaEval : DatasetEntry → Option AuthenticatedUser → Bool)
    (sset : SdkSettings)
    (engineInit : Option (String → PolicyInput → EvalOutcome)) (now : Int) :
    enforce_dataset_access_opa entry user oset opaEval =
        (.error ⟨500, msg⟩, []) ∧
    enforce_dataset_access_sdk entry user sset engineInit now =
        (.error ⟨500, "Invalid dataset access level configuration"⟩, []) ∧
    AccessLevel.fromValue none = .ok .OPEN ∧
    AccessLevel.fromValue (some "") = .ok .OPEN := by
  refine ⟨?_, ?_, by decide, by decide⟩ <;>
    simp [enforce_dataset_access_opa, enforce_dataset_access_sdk, hbad]

/-- C5 witness: the amended statement applied to an entry whose
`access_level` is the unknown value `"Bogus"`. -/
theorem unparseable_level_500_witness :
    enforce_dataset_access_opa ⟨"ds_bad", some "Bogus", "postgres", true, none⟩
        none ⟨true⟩ (fun _ _ => true) =
      (.error ⟨500, "Invalid disclosure level: Bogus"⟩, []) :=
  (unparseable_level_500_missing_defaults_open
    ⟨"ds_bad", some "Bogus", "postgres", true, none⟩
    "Invalid disclosure level: Bogus" (by decide) none ⟨true⟩
    (fun _ _ => true) ⟨true, "celine.dataset"⟩ none 0).1

/-! ## SQL validator pipeline

Source: `celine/dataset/api/dataset_query/parser.py` (the two-argument
`parse_sql_query(sql, table)` pipeline) together with the `try/except`
wrapper around the parser call in
`celine/dataset/api/dataset_query/executor.py`. -/

/-- sqlglot expression nodes, restricted to the constructors that the
validator pipeline in `celine/dataset/api/dataset_query/parser.py`
distinguishes.  Of the `FORBIDDEN_NODES` classes only `Union` and `Join`
can occur inside a parsed query expression; the DML/DDL statement classes
are only ever parse roots and are subsumed by the root `SELECT` check. -/
inductive SqlAst where
  | selectStmt (withArg : Option SqlAst) (distinctArg : Option SqlAst)
      (projs : List SqlAst) (fromArg : Option SqlAst) (joins : List SqlAst)
      (whereArg : Option SqlAst) (orderArg : Option SqlAst)
  | unionStmt (left right : SqlAst)
  | joinExpr (src : SqlAst) (onCond : Option SqlAst)
  | withNode (ctes : List SqlAst)
  | cteNode (aliasName : String) (body : SqlAst)
  | fromNode (this : Option SqlAst) (expressions : List SqlAst)
  | whereNode (this : SqlAst)
  | distinctNode (onArg : Option SqlAst) (expressions : List SqlAst)
  | orderNode (items : List SqlAst)
  | orderedNode (e : SqlAst) (desc : Bool)
  | tableNode (name : String) (db : Option String) (aliasArg : Option String)
  | columnNode (name : String) (tableQual : Option String)
  | star
  | litNode (isString : Bool) (token : String)
  | nullNode
  | boolNode (b : Bool)
  | andNode (l r : SqlAst)
  | orNode (l r : SqlAst)
  | notNode (e : SqlAst)
  | eqNode (l r : SqlAst)
  | neqNode (l r : SqlAst)
  | gtNode (l r : SqlAst)
  | gteNode (l r : SqlAst)
  | ltNode (l r : SqlAst)
  | lteNode (l r : SqlAst)
  | betweenNode (e lo hi : SqlAst)
  | inNode (e : SqlAst) (items : List SqlAst)
  | isNode (l r : SqlAst)
  | parenNode (e : SqlAst)
  | aliasNode (e : SqlAst) (aliasName : String)
  | subqueryNode (inner : SqlAst)
  | funcNode (name : String) (args : List SqlAst)

namespace SqlAst

def optList : Option SqlAst → List SqlAst
  | none => []
  | some x => [x]

/-- Direct children of a node, in sqlglot's argument order. -/
def childrenOf : SqlAst → List SqlAst
  | selectStmt w d projs fr joins wh ord =>
      optList w ++ optList d ++ projs ++ optList fr ++ joins ++ optList wh ++
        optList ord
  | unionStmt l r => [l, r]
  | joinExpr src onCond => src :: optList onCond
  | withNode ctes => ctes
  | cteNode _ body => [body]
  | fromNode this exprs => optList this ++ exprs
  | whereNode this => [this]
  | distinctNode onArg exprs => optList onArg ++ exprs
  | orderNode items => items
  | orderedNode e _ => [e]
  | tableNode _ _ _ => []
  | columnNode _ _ => []
  | star => []
  | litNode _ _ => []
  | nullNode => []
  | boolNode _ => []
  | andNode l r => [l, r]
  | orNode l r => [l, r]
  | notNode e => [e]
  | eqNode l r => [l, r]
  | neqNode l r => [l, r]
  | gtNode l r => [l, r]
  | gteNode l r => [l, r]
  | ltNode l r => [l, r]
  | lteNode l r => [l, r]
  | betweenNode e lo hi => [e, lo, hi]
  | inNode e items => e :: items
  | isNode l r => [l, r]
  | parenNode e => [e]
  | aliasNode e _ => [e]
  | subqueryNode inner => [inner]
  | funcNode _ args => args

end SqlAst

/-- Exceptions escaping `parse_sql_query`: every `HTTPException` it raises
goes through `_bad_request`, i.e. carries status 400; any other Python
exception (sqlglot parse errors, `KeyError`, `RecursionError`, ...) is an
uncaught `pyError`. -/
inductive ParseExc where
  | badRequest (detail : String)
  | pyError (msg : String)
deriving Repr, DecidableEq

/-- Pre-order walk (`Expression.walk()`) over a worklist, with a node
budget standing in for Python's recursion limit: exhausting it is the
`RecursionError` case. -/
def walkF : Nat → List SqlAst → Except ParseExc (List SqlAst)
  | _, [] => .ok []
  | 0, _ :: _ => .error (.pyError "RecursionError")
  | fuel + 1, n :: rest =>
    (walkF fuel (n.childrenOf ++ rest)).map (fun l => n :: l)

/-- A single-quote character as a string, for building error messages that
quote identifiers. -/
def sq : String := String.mk [squote]

/-- The reflected physical table: its name and column names (`table.c`). -/
structure TableSchema where
  name : String
  cols : List String

/-- What `_build_select` consults of a built CTE selectable: its exposed
column names (`src.c`). -/
structure CteObj where
  cols : List String

/-- The selectable passed to `.select_from(...)`. -/
inductive FromObj where
  | tbl (t : TableSchema)
  | cte (name : String) (cols : List String)

def FromObj.colNames : FromObj → List String
  | .tbl t => t.cols
  | .cte _ cols => cols

def FromObj.srcName : FromObj → String
  | .tbl t => t.name
  | .cte n _ => n

/-- Python values produced by `_convert_literal`. -/
inductive PyVal where
  | vStr (s : String)
  | vDatetime (s : String)
  | vInt (n : Int)
  | vFloat (token : String)
  | vBool (b : Bool)
  | vNone

mutual
/-- SQLAlchemy column elements, as far as the translation builds them. -/
inductive SqlaExpr where
  | lit (v : PyVal)
  | colRef (src : String) (col : String)
  | label (e : SqlaExpr) (name : String)
  | andE (l r : SqlaExpr)
  | orE (l r : SqlaExpr)
  | notE (e : SqlaExpr)
  | cmpE (op : String) (l r : SqlaExpr)
  | funcCall (name : String) (args : List SqlaExpr)
  | scalarSubquery (sub : SqlaSelect)
  | betweenE (e lo hi : SqlaExpr)

/-- A built SQLAlchemy `Select`. -/
inductive SqlaSelect where
  | mk (cols : List SqlaExpr) (fromObj : FromObj) (distinct : Bool)
      (whereCl : Option SqlaExpr) (order : List (SqlaExpr × Bool))
end

def SqlaSelect.cols : SqlaSelect → List SqlaExpr
  | .mk cols _ _ _ _ => cols

/-- Column names a CTE selectable exposes (`cte_stmt.cte(name).c`): named
projections only. -/
def cteObjOf (s : SqlaSelect) : CteObj :=
  ⟨s.cols.filterMap (fun e =>
    match e with
    | .colRef _ n => some n
    | .label _ nm => some nm
    | _ => none)⟩

/-! ### Literal conversion helpers -/

/-- Python `.replace("''", "'")`: left-to-right, non-overlapping. -/
def unescapeQuotes : List Char → List Char
  | [] => []
  | [c] => [c]
  | c :: c2 :: rest =>
    if c = squote ∧ c2 = squote then squote :: unescapeQuotes rest
    else c :: unescapeQuotes (c2 :: rest)

/-- `ISO_RE = ^\d{4}-\d{2}-\d{2}T`. -/
def isoPrefix (s : String) : Bool :=
  match s.data with
  | a :: b :: c :: d :: e :: f :: g :: h :: i :: j :: k :: _ =>
    a.isDigit && b.isDigit && c.isDigit && d.isDigit && e = '-' &&
      f.isDigit && g.isDigit && h = '-' && i.isDigit && j.isDigit && k = 'T'
  | _ => false

/-- `Literal.is_int`: an optional sign followed by digits. -/
def isIntToken (t : String) : Bool :=
  match t.data with
  | [] => false
  | c :: rest =>
    if c = '-' then rest ≠ [] && rest.all Char.isDigit
    else (c :: rest).all Char.isDigit

/-- `Literal.is_number`, approximated: sign, digits and at most the dot.
Only the int/float/string classification depends on it. -/
def isNumToken (t : String) : Bool :=
  t.data ≠ [] && t.data.all (fun c => c.isDigit || c = '.' || c = '-')

/-- `_convert_literal`.  sqlglot stores string tokens unquoted, so the
`token[1:-1]` branch only fires on tokens that still carry their quotes;
`datetime.fromisoformat` is modelled as succeeding whenever `ISO_RE`
matches (its failure falls back to the same string). -/
def convert_literal (isString : Bool) (token : String) : PyVal :=
  if isString then
    let s :=
      if token.startsWith sq then
        String.mk (unescapeQuotes (token.data.drop 1).dropLast)
      else token
    if isoPrefix s then .vDatetime s else .vStr s
  else if isIntToken token then .vInt (token.toInt?.getD 0)
  else if isNumToken token then .vFloat token
  else .vStr token

/-! ### Allow-lists and node classification -/

def POSTGIS_FUNCTIONS : List String :=
  ["st_intersects", "st_contains", "st_within", "st_dwithin",
   "st_geomfromgeojson", "st_setsrid", "st_transform",
   "st_x", "st_y", "st_area", "st_length"]

def ALLOWED_FUNCTIONS : List String :=
  ["coalesce", "greatest", "least", "lower", "upper", "length", "abs",
   "round", "max", "min"] ++ POSTGIS_FUNCTIONS

/-- Membership in `FORBIDDEN_NODES`, for the node kinds representable in
this embedding (`Union` and `Join`; the DML/DDL classes only occur as
statement roots, which the `SELECT`-root check already rejects). -/
def isForbiddenNode : SqlAst → Bool
  | .unionStmt _ _ => true
  | .joinExpr _ _ => true
  | _ => false

def forbiddenName : SqlAst → String
  | .unionStmt _ _ => "Union"
  | .joinExpr _ _ => "Join"
  | _ => ""

/-! ### Validators -/

def validate_statement_is_select (stmt : SqlAst) : Except ParseExc SqlAst :=
  match stmt with
  | .selectStmt _ _ _ _ _ _ _ => .ok stmt
  | _ => .error (.badRequest "Only SELECT queries are allowed")

def reject_forbidden_nodes (fuel : Nat) (stmt : SqlAst) :
    Except ParseExc Unit := do
  let nodes ← walkF fuel [stmt]
  match nodes.find? isForbiddenNode with
  | some n => .error (.badRequest ("Forbidden SQL construct: " ++ forbiddenName n))
  | none => .ok ()

def validate_distinct (sel : SqlAst) : Except ParseExc Unit :=
  match sel with
  | .selectStmt _ (some (.distinctNode onArg exprs)) _ _ _ _ _ =>
    if onArg.isSome || !exprs.isEmpty then
      .error (.badRequest "DISTINCT ON is not allowed")
    else .ok ()
  | _ => .ok ()

/-- `_validate_from_single_source`.  The source reads
`sel.args.get("from_")`, but sqlglot stores a select's FROM clause under
the arg key `"from"` (`from_` is only the name of the builder method), so
the lookup always yields `None` and the function raises
`400 FROM clause is required` before ever inspecting the select's real
FROM argument (carried here as `_fromArg`); the remainder of the body is
translated as the dead `some` branch. -/
def validate_from_single_source ( _fromArg : Option SqlAst)
    (datasetTableName : String) (allowedCteNames : List String) :
    Except ParseExc String :=
  let fromKeyLookup : Option SqlAst := none
  match fromKeyLookup with
  | none => .error (.badRequest "FROM clause is required")
  | some (.fromNode this exprs) =>
    let tableExpr? : Except ParseExc SqlAst :=
      match this, exprs with
      | some t, _ => .ok t
      | none, [t] => .ok t
      | none, _ => .error (.badRequest "Exactly one FROM source is required")
    match tableExpr? with
    | .error e => .error e
    | .ok (.tableNode name db aliasArg) =>
      if aliasArg.isSome then
        .error (.badRequest "Table aliases are not allowed")
      else if db.isSome then
        .error (.badRequest "Qualified table names are not allowed")
      else if name = datasetTableName ∨ name ∈ allowedCteNames then .ok name
      else
        .error (.badRequest
          ("Access to table " ++ sq ++ name ++ sq ++ " is not allowed"))
    | .ok _ => .error (.badRequest "FROM must reference a table")
  | some _ => .error (.pyError "AttributeError")

/-- `_resolve_column` (`col.table` is the empty string when absent). -/
def resolve_column (name : String) (qual : Option String)
    (table : TableSchema) (cteSources : List (String × CteObj)) :
    Except ParseExc SqlaExpr :=
  if (qual.getD "") ≠ "" then
    .error (.badRequest "Qualified column references are not allowed")
  else if name ∈ table.cols then .ok (.colRef table.name name)
  else
    match cteSources.find? (fun kv => name ∈ kv.2.cols) with
    | some kv => .ok (.colRef kv.1 name)
    | none =>
      .error (.badRequest ("Unknown column " ++ sq ++ name ++ sq))

/-- Dict assignment for association lists (`d[k] = v`). -/
def assocSet {A : Type} (st : List (String × A)) (key : String) (v : A) :
    List (String × A) :=
  if st.any (fun kv => kv.1 = key) then
    st.map (fun kv => if kv.1 = key then (key, v) else kv)
  else st ++ [(key, v)]

/-- First pass over a WITH clause: collect CTE names
(`cte.alias_or_name`, empty ⇒ `400 CTE missing name`). -/
def collectCteNames (acc : List String) :
    List SqlAst → Except ParseExc (List String)
  | [] => .ok acc
  | c :: rest =>
    match c with
    | .cteNode a _ =>
      if a = "" then .error (.badRequest "CTE missing name")
      else collectCteNames (acc ++ [a]) rest
    | _ => .error (.badRequest "CTE missing name")

/-- sqlglot class name of a node, for error messages. -/
def nodeTypeName : SqlAst → String
  | .selectStmt _ _ _ _ _ _ _ => "Select"
  | .unionStmt _ _ => "Union"
  | .joinExpr _ _ => "Join"
  | .withNode _ => "With"
  | .cteNode _ _ => "CTE"
  | .fromNode _ _ => "From"
  | .whereNode _ => "Where"
  | .distinctNode _ _ => "Distinct"
  | .orderNode _ => "Order"
  | .orderedNode _ _ => "Ordered"
  | .tableNode _ _ _ => "Table"
  | .columnNode _ _ => "Column"
  | .star => "Star"
  | .litNode _ _ => "Literal"
  | .nullNode => "Null"
  | .boolNode _ => "Boolean"
  | .andNode _ _ => "And"
  | .orNode _ _ => "Or"
  | .notNode _ => "Not"
  | .eqNode _ _ => "EQ"
  | .neqNode _ _ => "NEQ"
  | .gtNode _ _ => "GT"
  | .gteNode _ _ => "GTE"
  | .ltNode _ _ => "LT"
  | .lteNode _ _ => "LTE"
  | .betweenNode _ _ _ => "Between"
  | .inNode _ _ => "In"
  | .isNode _ _ => "Is"
  | .parenNode _ => "Paren"
  | .aliasNode _ _ => "Alias"
  | .subqueryNode _ => "Subquery"
  | .funcNode _ _ => "Anonymous"

mutual

/-- `_ast_to_sqla`: translate an expression node into a SQLAlchemy column
element, mirroring the source's isinstance dispatch.  The first argument is
the recursion budget standing in for Python's recursion limit. -/
def astToSqla : Nat → SqlAst → TableSchema → List (String × CteObj) →
    List String → Except ParseExc SqlaExpr
  | 0, _, _, _, _ => .error (.pyError "RecursionError")
  | fuel + 1, node, table, cteSources, allowedCteNames =>
    match node with
    | .whereNode inner => astToSqla fuel inner table cteSources allowedCteNames
    | .parenNode inner => astToSqla fuel inner table cteSources allowedCteNames
    | .litNode isString token => .ok (.lit (convert_literal isString token))
    | .nullNode => .ok (.lit .vNone)
    | .boolNode b => .ok (.lit (.vBool b))
    | .columnNode name qual => resolve_column name qual table cteSources
    | .aliasNode e name => do
        let inner ← astToSqla fuel e table cteSources allowedCteNames
        .ok (.label inner name)
    | .andNode l r => do
        let a ← astToSqla fuel l table cteSources allowedCteNames
        let b ← astToSqla fuel r table cteSources allowedCteNames
        .ok (.andE a b)
    | .orNode l r => do
        let a ← astToSqla fuel l table cteSources allowedCteNames
        let b ← astToSqla fuel r table cteSources allowedCteNames
        .ok (.orE a b)
    | .notNode e => do
        let a ← astToSqla fuel e table cteSources allowedCteNames
        .ok (.notE a)
    | .eqNode l r => do
        let a ← astToSqla fuel l table cteSources allowedCteNames
        let b ← astToSqla fuel r table cteSources allowedCteNames
        .ok (.cmpE "eq" a b)
    | .neqNode l r => do
        let a ← astToSqla fuel l table cteSources allowedCteNames
        let b ← astToSqla fuel r table cteSources allowedCteNames
        .ok (.cmpE "neq" a b)
    | .gtNode l r => do
        let a ← astToSqla fuel l table cteSources allowedCteNames
        let b ← astToSqla fuel r table cteSources allowedCteNames
        .ok (.cmpE "gt" a b)
    | .gteNode l r => do
        let a ← astToSqla fuel l table cteSources allowedCteNames
        let b ← astToSqla fuel r table cteSources allowedCteNames
        .ok (.cmpE "gte" a b)
    | .ltNode l r => do
        let a ← astToSqla fuel l table cteSources allowedCteNames
        let b ← astToSqla fuel r table cteSources allowedCteNames
        .ok (.cmpE "lt" a b)
    | .lteNode l r => do
        let a ← astToSqla fuel l table cteSources allowedCteNames
        let b ← astToSqla fuel r table cteSources allowedCteNames
        .ok (.cmpE "lte" a b)
    | .funcNode name args =>
        let fname := pyLower name
        if fname ∈ ALLOWED_FUNCTIONS then do
          let sas ← astToSqlaList fuel args table cteSources allowedCteNames
          .ok (.funcCall fname sas)
        else
          .error (.badRequest
            ("Function " ++ sq ++ fname ++ sq ++ " not allowed"))
    | .subqueryNode inner => do
        let sub ← buildSelect fuel inner table cteSources allowedCteNames true
        .ok (.scalarSubquery sub)
    | .betweenNode e lo hi => do
        let a ← astToSqla fuel e table cteSources allowedCteNames
        let lo2 ← astToSqla fuel lo table cteSources allowedCteNames
        let hi2 ← astToSqla fuel hi table cteSources allowedCteNames
        .ok (.betweenE a lo2 hi2)
    | other =>
        .error (.badRequest ("Unsupported expression: " ++ nodeTypeName other))

def astToSqlaList : Nat → List SqlAst → TableSchema →
    List (String × CteObj) → List String → Except ParseExc (List SqlaExpr)
  | 0, _, _, _, _ => .error (.pyError "RecursionError")
  | _ + 1, [], _, _, _ => .ok []
  | fuel + 1, x :: xs, table, cteSources, allowedCteNames => do
      let a ← astToSqla fuel x table cteSources allowedCteNames
      let rest ← astToSqlaList fuel xs table cteSources allowedCteNames
      .ok (a :: rest)

/-- The projection loop of `_build_select`: `*` expands to the columns of
the FROM selectable, anything else goes through `_ast_to_sqla`. -/
def projListF : Nat → List SqlAst → FromObj → TableSchema →
    List (String × CteObj) → List String → Except ParseExc (List SqlaExpr)
  | 0, _, _, _, _, _ => .error (.pyError "RecursionError")
  | _ + 1, [], _, _, _, _ => .ok []
  | fuel + 1, e :: rest, fromObj, table, cteSources, names =>
    match e with
    | .star => do
        let tail ← projListF fuel rest fromObj table cteSources names
        .ok ((fromObj.colNames.map
          (fun c => SqlaExpr.colRef fromObj.srcName c)) ++ tail)
    | _ => do
        let a ← astToSqla fuel e table cteSources names
        let tail ← projListF fuel rest fromObj table cteSources names
        .ok (a :: tail)

def orderListF : Nat → List SqlAst → TableSchema → List (String × CteObj) →
    List String → Except ParseExc (List (SqlaExpr × Bool))
  | 0, _, _, _, _ => .error (.pyError "RecursionError")
  | _ + 1, [], _, _, _ => .ok []
  | fuel + 1, item :: rest, table, cteSources, names =>
    match item with
    | .orderedNode e desc => do
        let col ← astToSqla fuel e table cteSources names
        let tail ← orderListF fuel rest table cteSources names
        .ok ((col, desc) :: tail)
    | _ => .error (.pyError "AttributeError")

/-- The local WITH-clause loop of `_build_select`: build each CTE (with
`is_subquery=True`) and record it in the dict of CTE selectables. -/
def buildLocalCtes : Nat → List SqlAst → TableSchema →
    List (String × CteObj) → List String →
    Except ParseExc (List (String × CteObj))
  | 0, _, _, _, _ => .error (.pyError "RecursionError")
  | _ + 1, [], _, sources, _ => .ok sources
  | fuel + 1, c :: rest, table, sources, localNames =>
    match c with
    | .cteNode name body =>
      if name = "" then .error (.badRequest "CTE missing name")
      else do
        let cteStmt ← buildSelect fuel body table sources localNames true
        buildLocalCtes fuel rest table
          (assocSet sources name (cteObjOf cteStmt)) localNames
    | _ => .error (.badRequest "CTE missing name")

/-- `_build_select`.  The source reads the WITH clause here under the arg
key `"with_"`, which sqlglot never populates (the real key, `"with"`, is
read in `_validate_ctes` line 304), so the local-CTE registration below
is dead code and `_validate_from_single_source` is reached with no local
CTE names for every select. -/
def buildSelect : Nat → SqlAst → TableSchema → List (String × CteObj) →
    List String → Bool → Except ParseExc SqlaSelect
  | 0, _, _, _, _, _ => .error (.pyError "RecursionError")
  | fuel + 1, sel, table, cteSources0, allowedCteNames, isSubquery =>
    match sel with
    | .selectStmt _withArg distinctArg projs fromArg _joins whereArg orderArg => do
      let withKeyLookup : Option SqlAst := none
      let ctes : List SqlAst :=
        match withKeyLookup with
        | some (.withNode cs) => cs
        | _ => []
      let localCteNames ← collectCteNames allowedCteNames ctes
      let cteSources ← buildLocalCtes fuel ctes table cteSources0 localCteNames
      let srcName ← validate_from_single_source fromArg table.name localCteNames
      let fromObj ←
        (if srcName = table.name then .ok (FromObj.tbl table)
         else
           match cteSources.find? (fun kv => kv.1 = srcName) with
           | some kv => .ok (FromObj.cte srcName kv.2.cols)
           | none => (.error (.pyError "KeyError") : Except ParseExc FromObj))
      let saCols ← projListF fuel projs fromObj table cteSources localCteNames
      let whereCl ←
        (match whereArg with
         | some w => (astToSqla fuel w table cteSources localCteNames).map some
         | none => .ok none)
      if isSubquery && saCols.length != 1 then
        .error (.badRequest "Subquery must return exactly one column")
      else do
        let orderItems ←
          (match orderArg with
           | some (.orderNode items) =>
               orderListF fuel items table cteSources localCteNames
           | some _ => .error (.pyError "AttributeError")
           | none => .ok [])
        .ok (.mk saCols fromObj distinctArg.isSome whereCl orderItems)
    | _ => .error (.pyError "AttributeError")

end

/-- The loop body of `_validate_ctes`. -/
def validateCtesLoop (fuel : Nat) (datasetTableName : String) :
    List SqlAst → List (String × SqlAst) →
    Except ParseExc (List (String × SqlAst))
  | [], acc => .ok acc
  | c :: rest, acc =>
    match c with
    | .cteNode aliasName body =>
      if aliasName = "" then .error (.badRequest "CTE missing name")
      else if acc.any (fun kv => kv.1 = aliasName) then
        .error (.badRequest ("Duplicate CTE " ++ sq ++ aliasName ++ sq))
      else
        match body with
        | .selectStmt _ _ _ bFrom _ _ _ => do
          reject_forbidden_nodes fuel body
          validate_distinct body
          let _ ← validate_from_single_source bFrom datasetTableName []
          validateCtesLoop fuel datasetTableName rest (acc ++ [(aliasName, body)])
        | _ => .error (.badRequest "CTE body must be SELECT")
    | _ => .error (.badRequest "CTE missing name")

def validate_ctes (fuel : Nat) (sel : SqlAst) (datasetTableName : String) :
    Except ParseExc (List (String × SqlAst)) :=
  match sel with
  | .selectStmt withArg _ _ _ _ _ _ =>
    match withArg with
    | none => .ok []
    | some (.withNode ctes) => validateCtesLoop fuel datasetTableName ctes []
    | some _ => .error (.pyError "AttributeError")
  | _ => .ok []

/-- The CTE-building loop of `parse_sql_query` (each top-level CTE is built
with `allowed_cte_names = set()`). -/
def buildTopCtes (fuel : Nat) (table : TableSchema) :
    List (String × SqlAst) → List (String × CteObj) →
    Except ParseExc (List (String × CteObj))
  | [], sources => .ok sources
  | (name, cteSel) :: rest, sources => do
      let cteStmt ← buildSelect fuel cteSel table sources [] false
      buildTopCtes fuel table rest (assocSet sources name (cteObjOf cteStmt))

/-- `parse_sql_query`, from the parsed statement on (the leading empty-SQL
and semicolon guards act on the raw string and are modelled with
`has_unquoted_semicolon`). -/
def parse_sql_query_ast (fuel : Nat) (stmt : SqlAst) (table : TableSchema) :
    Except ParseExc SqlaSelect := do
  let sel ← validate_statement_is_select stmt
  reject_forbidden_nodes fuel sel
  validate_distinct sel
  let cteAsts ← validate_ctes fuel sel table.name
  let cteSources ← buildTopCtes fuel table cteAsts []
  buildSelect fuel sel table cteSources (cteSources.map (fun kv => kv.1)) false

/-- The `try/except` around `parse_sql_query` in `execute_query`
(executor.py): an `HTTPException` is re-raised unchanged — and every
`HTTPException` of parser.py is `_bad_request`, i.e. status 400 — while any
other exception becomes `HTTPException(400, str(exc))`. -/
def executor_validate_sql {A : Type} : Except ParseExc A → Except HttpError A
  | .ok v => .ok v
  | .error (.badRequest d) => .error ⟨400, d⟩
  | .error (.pyError m) => .error ⟨400, m⟩

def parseOk {A : Type} : Except ParseExc A → Bool
  | .ok _ => true
  | .error _ => false

def parseError? {A : Type} : Except ParseExc A → Option ParseExc
  | .ok _ => none
  | .error e => some e

/-- Whether the (budgeted) walk of a statement reaches a forbidden node. -/
def walkContainsForbidden (fuel : Nat) (stmt : SqlAst) : Bool :=
  match walkF fuel [stmt] with
  | .ok l => l.any isForbiddenNode
  | .error _ => false

theorem validate_statement_err (stmt : SqlAst) (e : ParseExc)
    (h : validate_statement_is_select stmt = .error e) :
    e = .badRequest "Only SELECT queries are allowed" := by
  cases stmt <;> simp_all [validate_statement_is_select]

theorem validate_statement_ok (stmt sel : SqlAst)
    (h : validate_statement_is_select stmt = .ok sel) : sel = stmt := by
  cases stmt <;> simp_all [validate_statement_is_select]

/-- Example table and statements. -/
def solarTable : TableSchema := ⟨"solar", ["run_time_utc", "lat", "lon", "value"]⟩

/-- `SELECT lat FROM solar`. -/
def egSelect : SqlAst :=
  .selectStmt none none [.columnNode "lat" none]
    (some (.fromNode (some (.tableNode "solar" none none)) [])) [] none none

/-- `SELECT lat FROM weather`. -/
def egSelectWeather : SqlAst :=
  .selectStmt none none [.columnNode "lat" none]
    (some (.fromNode (some (.tableNode "weather" none none)) [])) [] none none

/-- `SELECT lat FROM solar UNION SELECT lat FROM weather`. -/
def egUnion : SqlAst := .unionStmt egSelect egSelectWeather

/-- `SELECT * FROM solar JOIN weather ON lat = lat`. -/
def egJoinSelect : SqlAst :=
  .selectStmt none none [.star]
    (some (.fromNode (some (.tableNode "solar" none none)) []))
    [.joinExpr (.tableNode "weather" none none)
      (some (.eqNode (.columnNode "lat" none) (.columnNode "lat" none)))]
    none none

/-- `SELECT * FROM solar WHERE 1 = 1`. -/
def egTautology : SqlAst :=
  .selectStmt none none [.star]
    (some (.fromNode (some (.tableNode "solar" none none)) [])) []
    (some (.whereNode (.eqNode (.litNode false "1") (.litNode false "1"))))
    none

/-- `SELECT * FROM solar WHERE lat = lat`. -/
def egTautologyCol : SqlAst :=
  .selectStmt none none [.star]
    (some (.fromNode (some (.tableNode "solar" none none)) [])) []
    (some (.whereNode (.eqNode (.columnNode "lat" none) (.columnNode "lat" none))))
    none

/-- The final `_build_select` stage never succeeds: its `with_` lookup is
dead and `_validate_from_single_source` — whose `from_` lookup is dead —
is reached unconditionally and raises. -/
theorem buildSelect_not_ok (fuel : Nat) (sel : SqlAst) (table : TableSchema)
    (cs : List (String × CteObj)) (names : List String) (sub : Bool) :
    parseOk (buildSelect fuel sel table cs names sub) = false := by
  cases fuel with
  | zero => rfl
  | succ fuel =>
    cases sel
    case selectStmt w d p f j wh o => cases fuel <;> rfl
    all_goals rfl

/-- `parse_sql_query` never returns: every query that survives the early
checks dies in `_validate_from_single_source` (directly, via a CTE in
`_validate_ctes`, or via `_build_select`), so no input validates. -/
theorem parse_sql_query_ast_never_ok (fuel : Nat) (stmt : SqlAst)
    (table : TableSchema) :
    parseOk (parse_sql_query_ast fuel stmt table) = false := by
  rw [parse_sql_query_ast]
  cases hvs : validate_statement_is_select stmt with
  | error e => simp [hvs, Bind.bind, Except.bind, parseOk]
  | ok sel =>
    simp only [hvs, Bind.bind, Except.bind]
    cases hrj : reject_forbidden_nodes fuel sel with
    | error e => simp [hrj, parseOk]
    | ok u =>
      cases u
      simp only [hrj]
      cases hvd : validate_distinct sel with
      | error e => simp [hvd, parseOk]
      | ok u2 =>
        cases u2
        simp only [hvd]
        cases hvc : validate_ctes fuel sel table.name with
        | error e => simp [hvc, parseOk]
        | ok cteAsts =>
          simp only [hvc]
          cases hbt : buildTopCtes fuel table cteAsts [] with
          | error e => simp [hbt, parseOk]
          | ok cteSources =>
            simp only [hbt]
            exact buildSelect_not_ok fuel sel table _ _ false

/-- Through the executor wrapper, every input therefore yields an
`HTTPException` with status 400. -/
theorem wrapped_validator_always_400 (fuel : Nat) (stmt : SqlAst)
    (table : TableSchema) :
    ∃ d, executor_validate_sql (parse_sql_query_ast fuel stmt table) =
      .error ⟨400, d⟩ := by
  have h := parse_sql_query_ast_never_ok fuel stmt table
  cases hp : parse_sql_query_ast fuel stmt table with
  | ok v => rw [hp] at h; exact absurd h (by simp [parseOk])
  | error e =>
    cases e with
    | badRequest d => exact ⟨d, rfl⟩
    | pyError m => exact ⟨m, rfl⟩

/-- C4 (amended): the validator rejects every statement whose walk reaches
a `Union` or `Join` node with a 400 `_bad_request`, instead of accepting
them — and in fact it accepts no statement at all: the FROM clause is
looked up under the never-populated arg key `from_`, so every query that
survives the earlier checks is rejected with
`400 FROM clause is required`. -/
theorem validator_rejects_union_and_join :
    (∀ (fuel : Nat) (stmt : SqlAst) (table : TableSchema),
        walkContainsForbidden fuel stmt = true →
        ∃ d, parse_sql_query_ast fuel stmt table = .error (.badRequest d)) ∧
    (∀ (fuel : Nat) (stmt : SqlAst) (table : TableSchema),
        parseOk (parse_sql_query_ast fuel stmt table) = false) := by
  constructor
  · intro fuel stmt table hwalk
    cases hvs : validate_statement_is_select stmt with
    | error e =>
      have he := validate_statement_err stmt e hvs
      subst he
      exact ⟨"Only SELECT queries are allowed", by
        simp [parse_sql_query_ast, hvs, Bind.bind, Except.bind]⟩
    | ok sel =>
      have hsel := validate_statement_ok stmt sel hvs
      subst hsel
      unfold walkContainsForbidden at hwalk
      cases hw : walkF fuel [sel] with
      | error e => rw [hw] at hwalk; simp at hwalk
      | ok l =>
        rw [hw] at hwalk
        simp only [] at hwalk
        have hfind : (l.find? isForbiddenNode).isSome := by
          rw [List.find?_isSome]
          simpa [List.any_eq_true] using hwalk
        rcases hsome : l.find? isForbiddenNode with _ | nf
        · rw [hsome] at hfind; simp at hfind
        · refine ⟨"Forbidden SQL construct: " ++ forbiddenName nf, ?_⟩
          simp [parse_sql_query_ast, hvs, reject_forbidden_nodes, hw, hsome,
            Bind.bind, Except.bind]
  · exact parse_sql_query_ast_never_ok

/-- C4 witness: the rejection half applied to a concrete UNION query. -/
theorem validator_rejects_union_and_join_witness :
    ∃ d, parse_sql_query_ast 100 egUnion solarTable = .error (.badRequest d) :=
  validator_rejects_union_and_join.1 100 egUnion solarTable (by decide)

/-- C4 (counterexample): the claim says a UNION query and a join query are
accepted; in fact the canonical UNION query is rejected at the root-SELECT
check and the canonical join query is rejected as a forbidden construct. -/
theorem union_join_rejected_concretely :
    parseError? (parse_sql_query_ast 100 egUnion solarTable) =
        some (.badRequest "Only SELECT queries are allowed") ∧
    parseError? (parse_sql_query_ast 100 egJoinSelect solarTable) =
        some (.badRequest "Forbidden SQL construct: Join") := by
  constructor <;> decide

/-- C3: every query containing an identical-sides equality comparison is
rejected with a 400 — as is every other query: the dead `from_` lookup
makes `_validate_from_single_source` raise `400 FROM clause is required`
on everything that gets that far, so through the executor wrapper every
input yields a status-400 error; concretely, both `WHERE 1 = 1` and
`WHERE lat = lat` are rejected with `400 FROM clause is required` (no
tautology check is ever reached: `_validate_expression_tree` is dead
code). -/
theorem tautological_equality_rejected :
    (∀ (fuel : Nat) (stmt : SqlAst) (table : TableSchema),
        ∃ d, executor_validate_sql (parse_sql_query_ast fuel stmt table) =
          .error ⟨400, d⟩) ∧
    parseError? (parse_sql_query_ast 100 egTautology solarTable) =
        some (.badRequest "FROM clause is required") ∧
    parseError? (parse_sql_query_ast 100 egTautologyCol solarTable) =
        some (.badRequest "FROM clause is required") :=
  ⟨wrapped_validator_always_400, by decide, by decide⟩

/-- C2 (amended): the wrapped validator never lets a non-HTTP exception
propagate: every outcome is either a success or an `HTTPException` with
status 400; an internal parser exception with message `m` is surfaced as a
400 whose detail is `m` itself (not a fixed generic message). -/
theorem validator_failures_are_400 {A : Type} :
    (∀ o : Except ParseExc A,
        (∃ v, executor_validate_sql o = .ok v) ∨
        (∃ d, executor_validate_sql o = .error ⟨400, d⟩)) ∧
    (∀ m : String,
        executor_validate_sql (A := A) (.error (.pyError m)) = .error ⟨400, m⟩) := by
  constructor
  · intro o
    match o with
    | .ok v => exact Or.inl ⟨v, rfl⟩
    | .error (.badRequest d) => exact Or.inr ⟨d, rfl⟩
    | .error (.pyError m) => exact Or.inr ⟨m, rfl⟩
  · intro m
    rfl

/-- C2 (counterexample): there is no single generic message `g` such that
every internal parser error is surfaced as `400, g`: the detail echoes the
internal exception text, so two different internal errors produce two
different 400 details. -/
theorem internal_error_detail_not_generic :
    ¬ ∃ g : String, ∀ m : String,
        executor_validate_sql (A := Unit) (.error (.pyError m)) =
          .error ⟨400, g⟩ := by
  rintro ⟨g, hg⟩
  have h1 := hg "unexpected token"
  have h2 := hg "maximum recursion depth exceeded"
  simp [executor_validate_sql] at h1 h2
  rw [← h1] at h2
  exact absurd h2 (by decide)

/-! ## Row-filter AST rewriter

Source: `src/celine/dataset/api/dataset_query/row_filters/apply.py`
(and `.../row_filters/models.py` for `RowFilterPlan`).  The functions
operate on the same sqlglot tree type as the validator.  sqlglot mutates
copies in place; the embedding is pure, with `ast.copy()` becoming value
semantics.  Recursion again carries an explicit budget (`RewriteErr`
standing for Python divergence/recursion limits). -/

inductive RewriteErr where
  | recursionError
deriving Repr, DecidableEq

/-- `RowFilterPlan`: only the fields `apply_row_filter_plans` reads. -/
structure RowFilterPlan where
  table : String
  kind : String
  predicate_template : Option SqlAst

/-- One step of `plans_by_table.setdefault(p.table, []).append(p)`. -/
def groupInsert (acc : List (String × List RowFilterPlan))
    (p : RowFilterPlan) : List (String × List RowFilterPlan) :=
  if acc.any (fun kv => kv.1 = p.table) then
    acc.map (fun kv => if kv.1 = p.table then (kv.1, kv.2 ++ [p]) else kv)
  else acc ++ [(p.table, [p])]

def groupPlans (plans : List RowFilterPlan) :
    List (String × List RowFilterPlan) :=
  plans.foldl groupInsert []

/-- `_table_name`: the table's identifier text (a `Table` whose `this` is
not an `Identifier` would fall back to `table.sql()`, but only `Table`
nodes are ever collected). -/
def tableNameOf : SqlAst → String
  | .tableNode name _ _ => name
  | _ => ""

/-- `table.alias_or_name`. -/
def aliasOrName : SqlAst → String
  | .tableNode name _ aliasArg =>
    match aliasArg with
    | some a => if a = "" then name else a
    | none => name
  | _ => ""

/-- `_add_where`: AND onto an existing `Where`, otherwise install one. -/
def addWhereSel (sel : SqlAst) (condition : SqlAst) : SqlAst :=
  match sel with
  | .selectStmt w d p fr j wh o =>
    match wh with
    | some (.whereNode ex) =>
      .selectStmt w d p fr j (some (.whereNode (.andNode ex condition))) o
    | _ => .selectStmt w d p fr j (some (.whereNode condition)) o
  | other => other

def exceptMapList (g : SqlAst → Except RewriteErr SqlAst) :
    List SqlAst → Except RewriteErr (List SqlAst)
  | [] => .ok []
  | x :: xs => do
      let x2 ← g x
      let xs2 ← exceptMapList g xs
      .ok (x2 :: xs2)

def exceptMapOpt (g : SqlAst → Except RewriteErr SqlAst) :
    Option SqlAst → Except RewriteErr (Option SqlAst)
  | none => .ok none
  | some x => (g x).map some

def listStep (g : SqlAst → Bool → Except RewriteErr (SqlAst × Bool)) :
    List SqlAst → Bool → Except RewriteErr (List SqlAst × Bool)
  | [], s => .ok ([], s)
  | x :: xs, s => do
      let (x2, s2) ← g x s
      let (xs2, s3) ← listStep g xs s2
      .ok (x2 :: xs2, s3)

def optStep (g : SqlAst → Bool → Except RewriteErr (SqlAst × Bool)) :
    Option SqlAst → Bool → Except RewriteErr (Option SqlAst × Bool)
  | none, s => .ok (none, s)
  | some x, s => do
      let (x2, s2) ← g x s
      .ok (some x2, s2)

/-- Apply `g` to every direct child of a node, rebuilding it (the
reconstruction counterpart of `childrenOf`). -/
def mapChildrenF (g : SqlAst → Except RewriteErr SqlAst) :
    SqlAst → Except RewriteErr SqlAst
  | .selectStmt w d p fr j wh o => do
      let w2 ← exceptMapOpt g w
      let d2 ← exceptMapOpt g d
      let p2 ← exceptMapList g p
      let fr2 ← exceptMapOpt g fr
      let j2 ← exceptMapList g j
      let wh2 ← exceptMapOpt g wh
      let o2 ← exceptMapOpt g o
      .ok (.selectStmt w2 d2 p2 fr2 j2 wh2 o2)
  | .unionStmt l r => do
      let l2 ← g l
      let r2 ← g r
      .ok (.unionStmt l2 r2)
  | .joinExpr src onCond => do
      let src2 ← g src
      let onCond2 ← exceptMapOpt g onCond
      .ok (.joinExpr src2 onCond2)
  | .withNode ctes => do
      let ctes2 ← exceptMapList g ctes
      .ok (.withNode ctes2)
  | .cteNode a body => do
      let body2 ← g body
      .ok (.cteNode a body2)
  | .fromNode this exprs => do
      let this2 ← exceptMapOpt g this
      let exprs2 ← exceptMapList g exprs
      .ok (.fromNode this2 exprs2)
  | .whereNode this => do
      let this2 ← g this
      .ok (.whereNode this2)
  | .distinctNode onArg exprs => do
      let onArg2 ← exceptMapOpt g onArg
      let exprs2 ← exceptMapList g exprs
      .ok (.distinctNode onArg2 exprs2)
  | .orderNode items => do
      let items2 ← exceptMapList g items
      .ok (.orderNode items2)
  | .orderedNode e desc => do
      let e2 ← g e
      .ok (.orderedNode e2 desc)
  | .tableNode n db al => .ok (.tableNode n db al)
  | .columnNode n q => .ok (.columnNode n q)
  | .star => .ok (.star)
  | .litNode i t => .ok (.litNode i t)
  | .nullNode => .ok (.nullNode)
  | .boolNode b => .ok (.boolNode b)
  | .andNode l r => do
      let l2 ← g l
      let r2 ← g r
      .ok (.andNode l2 r2)
  | .orNode l r => do
      let l2 ← g l
      let r2 ← g r
      .ok (.orNode l2 r2)
  | .notNode e => do
      let e2 ← g e
      .ok (.notNode e2)
  | .eqNode l r => do
      let l2 ← g l
      let r2 ← g r
      .ok (.eqNode l2 r2)
  | .neqNode l r => do
      let l2 ← g l
      let r2 ← g r
      .ok (.neqNode l2 r2)
  | .gtNode l r => do
      let l2 ← g l
      let r2 ← g r
      .ok (.gtNode l2 r2)
  | .gteNode l r => do
      let l2 ← g l
      let r2 ← g r
      .ok (.gteNode l2 r2)
  | .ltNode l r => do
      let l2 ← g l
      let r2 ← g r
      .ok (.ltNode l2 r2)
  | .lteNode l r => do
      let l2 ← g l
      let r2 ← g r
      .ok (.lteNode l2 r2)
  | .betweenNode e lo hi => do
      let e2 ← g e
      let lo2 ← g lo
      let hi2 ← g hi
      .ok (.betweenNode e2 lo2 hi2)
  | .inNode e items => do
      let e2 ← g e
      let items2 ← exceptMapList g items
      .ok (.inNode e2 items2)
  | .isNode l r => do
      let l2 ← g l
      let r2 ← g r
      .ok (.isNode l2 r2)
  | .parenNode e => do
      let e2 ← g e
      .ok (.parenNode e2)
  | .aliasNode e an => do
      let e2 ← g e
      .ok (.aliasNode e2 an)
  | .subqueryNode inner => do
      let inner2 ← g inner
      .ok (.subqueryNode inner2)
  | .funcNode n args => do
      let args2 ← exceptMapList g args
      .ok (.funcNode n args2)

/-- Apply the state-threading `g` to every direct child of a node in
argument order, rebuilding it. -/
def mapChildrenStateF (g : SqlAst → Bool → Except RewriteErr (SqlAst × Bool)) :
    SqlAst → Bool → Except RewriteErr (SqlAst × Bool)
  | .selectStmt w d p fr j wh o, s0 => do
      let (w2, s1) ← optStep g w s0
      let (d2, s2) ← optStep g d s1
      let (p2, s3) ← listStep g p s2
      let (fr2, s4) ← optStep g fr s3
      let (j2, s5) ← listStep g j s4
      let (wh2, s6) ← optStep g wh s5
      let (o2, s7) ← optStep g o s6
      .ok (.selectStmt w2 d2 p2 fr2 j2 wh2 o2, s7)
  | .unionStmt l r, s0 => do
      let (l2, s1) ← g l s0
      let (r2, s2) ← g r s1
      .ok (.unionStmt l2 r2, s2)
  | .joinExpr src onCond, s0 => do
      let (src2, s1) ← g src s0
      let (onCond2, s2) ← optStep g onCond s1
      .ok (.joinExpr src2 onCond2, s2)
  | .withNode ctes, s0 => do
      let (ctes2, s1) ← listStep g ctes s0
      .ok (.withNode ctes2, s1)
  | .cteNode a body, s0 => do
      let (body2, s1) ← g body s0
      .ok (.cteNode a body2, s1)
  | .fromNode this exprs, s0 => do
      let (this2, s1) ← optStep g this s0
      let (exprs2, s2) ← listStep g exprs s1
      .ok (.fromNode this2 exprs2, s2)
  | .whereNode this, s0 => do
      let (this2, s1) ← g this s0
      .ok (.whereNode this2, s1)
  | .distinctNode onArg exprs, s0 => do
      let (onArg2, s1) ← optStep g onArg s0
      let (exprs2, s2) ← listStep g exprs s1
      .ok (.distinctNode onArg2 exprs2, s2)
  | .orderNode items, s0 => do
      let (items2, s1) ← listStep g items s0
      .ok (.orderNode items2, s1)
  | .orderedNode e desc, s0 => do
      let (e2, s1) ← g e s0
      .ok (.orderedNode e2 desc, s1)
  | .tableNode n db al, s0 => .ok (.tableNode n db al, s0)
  | .columnNode n q, s0 => .ok (.columnNode n q, s0)
  | .star, s0 => .ok (.star, s0)
  | .litNode i t, s0 => .ok (.litNode i t, s0)
  | .nullNode, s0 => .ok (.nullNode, s0)
  | .boolNode b, s0 => .ok (.boolNode b, s0)
  | .andNode l r, s0 => do
      let (l2, s1) ← g l s0
      let (r2, s2) ← g r s1
      .ok (.andNode l2 r2, s2)
  | .orNode l r, s0 => do
      let (l2, s1) ← g l s0
      let (r2, s2) ← g r s1
      .ok (.orNode l2 r2, s2)
  | .notNode e, s0 => do
      let (e2, s1) ← g e s0
      .ok (.notNode e2, s1)
  | .eqNode l r, s0 => do
      let (l2, s1) ← g l s0
      let (r2, s2) ← g r s1
      .ok (.eqNode l2 r2, s2)
  | .neqNode l r, s0 => do
      let (l2, s1) ← g l s0
      let (r2, s2) ← g r s1
      .ok (.neqNode l2 r2, s2)
  | .gtNode l r, s0 => do
      let (l2, s1) ← g l s0
      let (r2, s2) ← g r s1
      .ok (.gtNode l2 r2, s2)
  | .gteNode l r, s0 => do
      let (l2, s1) ← g l s0
      let (r2, s2) ← g r s1
      .ok (.gteNode l2 r2, s2)
  | .ltNode l r, s0 => do
      let (l2, s1) ← g l s0
      let (r2, s2) ← g r s1
      .ok (.ltNode l2 r2, s2)
  | .lteNode l r, s0 => do
      let (l2, s1) ← g l s0
      let (r2, s2) ← g r s1
      .ok (.lteNode l2 r2, s2)
  | .betweenNode e lo hi, s0 => do
      let (e2, s1) ← g e s0
      let (lo2, s2) ← g lo s1
      let (hi2, s3) ← g hi s2
      .ok (.betweenNode e2 lo2 hi2, s3)
  | .inNode e items, s0 => do
      let (e2, s1) ← g e s0
      let (items2, s2) ← listStep g items s1
      .ok (.inNode e2 items2, s2)
  | .isNode l r, s0 => do
      let (l2, s1) ← g l s0
      let (r2, s2) ← g r s1
      .ok (.isNode l2 r2, s2)
  | .parenNode e, s0 => do
      let (e2, s1) ← g e s0
      .ok (.parenNode e2, s1)
  | .aliasNode e an, s0 => do
      let (e2, s1) ← g e s0
      .ok (.aliasNode e2 an, s1)
  | .subqueryNode inner, s0 => do
      let (inner2, s1) ← g inner s0
      .ok (.subqueryNode inner2, s1)
  | .funcNode n args, s0 => do
      let (args2, s1) ← listStep g args s0
      .ok (.funcNode n args2, s1)


/-- `out.find(exp.Select)` followed by the in-place `_add_where`: rewrite
the first `SELECT` in walk order with `f`, leaving everything else intact;
the flag records whether one was found. -/
def replaceGo : Nat → (SqlAst → SqlAst) → SqlAst → Bool →
    Except RewriteErr (SqlAst × Bool)
  | 0, _, _, _ => .error .recursionError
  | fuel + 1, f, node, found =>
    if found then .ok (node, true)
    else
      match node with
      | .selectStmt _ _ _ _ _ _ _ => .ok (f node, true)
      | _ => mapChildrenStateF (replaceGo fuel f) node found

def replaceFirstSelF (fuel : Nat) (f : SqlAst → SqlAst) (node : SqlAst) :
    Except RewriteErr (Option SqlAst) := do
  let (node2, found) ← replaceGo fuel f node false
  .ok (if found then some node2 else none)

/-- `_qualify_columns` applied to a copy of the template: give every
unqualified `Column` the occurrence's alias. -/
def qualifyF : Nat → String → SqlAst → Except RewriteErr SqlAst
  | 0, _, _ => .error .recursionError
  | fuel + 1, aliasName, node =>
    match node with
    | .columnNode name qual =>
      .ok (.columnNode name (if qual.isSome then qual else some aliasName))
    | _ => mapChildrenF (qualifyF fuel aliasName) node

/-- `_tables_in_select`: `Table` descendants whose nearest enclosing
`SELECT` is the current one — collect over a worklist, not descending into
nested `SELECT`s. -/
def tablesDirect : Nat → List SqlAst → Except RewriteErr (List SqlAst)
  | _, [] => .ok []
  | 0, _ :: _ => .error .recursionError
  | fuel + 1, n :: rest =>
    match n with
    | .selectStmt _ _ _ _ _ _ _ => tablesDirect fuel rest
    | .tableNode _ _ _ => (tablesDirect fuel rest).map (fun l => n :: l)
    | _ => tablesDirect fuel (n.childrenOf ++ rest)

/-- The inner plan loop: qualify and AND-attach each predicate plan. -/
def plansFold : Nat → List RowFilterPlan → String → SqlAst →
    Except RewriteErr SqlAst
  | _, [], _, sel => .ok sel
  | fuel, p :: rest, aliasName, sel =>
    if p.kind ≠ "predicate" then plansFold fuel rest aliasName sel
    else
      match p.predicate_template with
      | none => plansFold fuel rest aliasName sel
      | some tmpl => do
          let cond ← qualifyF fuel aliasName tmpl
          plansFold fuel rest aliasName (addWhereSel sel cond)

/-- The table loop of the predicate branch. -/
def tablesFold (pbt : List (String × List RowFilterPlan)) :
    Nat → List SqlAst → SqlAst → Except RewriteErr SqlAst
  | _, [], sel => .ok sel
  | fuel, t :: rest, sel =>
    match pbt.find? (fun kv => kv.1 = tableNameOf t) with
    | none => tablesFold pbt fuel rest sel
    | some kv => do
        let sel2 ← plansFold fuel kv.2 (aliasOrName t) sel
        tablesFold pbt fuel rest sel2

/-- Inject the predicate plans into one `SELECT` (its directly owned
tables only). -/
def applyToSelect (fuel : Nat) (pbt : List (String × List RowFilterPlan))
    (sel : SqlAst) : Except RewriteErr SqlAst := do
  let tables ← tablesDirect fuel sel.childrenOf
  tablesFold pbt fuel tables sel

/-- The `for select in out.find_all(exp.Select)` loop: process each
`SELECT` top-down, then descend into the (possibly just rewritten)
children, as the lazily-evaluated generator does. -/
def applyPredsF : Nat → List (String × List RowFilterPlan) → SqlAst →
    Except RewriteErr SqlAst
  | 0, _, _ => .error .recursionError
  | fuel + 1, pbt, node =>
    match node with
    | .selectStmt _ _ _ _ _ _ _ => do
        let node2 ← applyToSelect fuel pbt node
        mapChildrenF (applyPredsF fuel pbt) node2
    | _ => mapChildrenF (applyPredsF fuel pbt) node

/-- `apply_row_filter_plans`: group the plans by table; work on a copy of
the AST; if any plan is a deny, AND `FALSE` onto the first `SELECT`'s
WHERE and return; otherwise inject each predicate plan into every matching
table occurrence of every `SELECT`. -/
def apply_row_filter_plans (fuel : Nat) (ast : SqlAst)
    (plans : List RowFilterPlan) : Except RewriteErr SqlAst := do
  let pbt := groupPlans plans
  let out := ast
  if pbt.any (fun g => g.2.any (fun p => p.kind = "deny")) then
    match ← replaceFirstSelF fuel (fun s => addWhereSel s (.boolNode false)) out with
    | some out2 => .ok out2
    | none => .ok out
  else
    applyPredsF fuel pbt out


/-! ### Claim theorems: deny plans (C7) -/

theorem groupInsert_mem (acc : List (String × List RowFilterPlan))
    (p q : RowFilterPlan) :
    (∃ g ∈ groupInsert acc p, q ∈ g.2) ↔ (∃ g ∈ acc, q ∈ g.2) ∨ q = p := by
  unfold groupInsert
  split
  · rename_i hmem
    simp only [List.any_eq_true, decide_eq_true_eq] at hmem
    constructor
    · rintro ⟨g, hg, hq⟩
      rw [List.mem_map] at hg
      obtain ⟨g0, hg0, rfl⟩ := hg
      by_cases hk : g0.1 = p.table
      · rw [if_pos hk] at hq
        simp only [List.mem_append, List.mem_singleton] at hq
        rcases hq with hq | hq
        · exact Or.inl ⟨g0, hg0, hq⟩
        · exact Or.inr hq
      · rw [if_neg hk] at hq
        exact Or.inl ⟨g0, hg0, hq⟩
    · intro h
      rcases h with ⟨g0, hg0, hq⟩ | hq
      · refine ⟨if g0.1 = p.table then (g0.1, g0.2 ++ [p]) else g0,
          List.mem_map.mpr ⟨g0, hg0, rfl⟩, ?_⟩
        by_cases hk : g0.1 = p.table
        · rw [if_pos hk]
          simp [hq]
        · rw [if_neg hk]
          exact hq
      · obtain ⟨g0, hg0, hk⟩ := hmem
        refine ⟨if g0.1 = p.table then (g0.1, g0.2 ++ [p]) else g0,
          List.mem_map.mpr ⟨g0, hg0, rfl⟩, ?_⟩
        rw [if_pos hk]
        simp [hq]
  · constructor
    · rintro ⟨g, hg, hq⟩
      rcases List.mem_append.mp hg with hg2 | hg2
      · exact Or.inl ⟨g, hg2, hq⟩
      · rw [List.mem_singleton] at hg2
        subst hg2
        simp only [List.mem_singleton] at hq
        exact Or.inr hq
    · intro h
      rcases h with ⟨g, hg, hq⟩ | hq
      · exact ⟨g, List.mem_append.mpr (Or.inl hg), hq⟩
      · exact ⟨(p.table, [p]),
          List.mem_append.mpr (Or.inr (List.mem_singleton.mpr rfl)),
          by simp [hq]⟩

theorem foldl_groupInsert_mem (plans : List RowFilterPlan)
    (acc : List (String × List RowFilterPlan)) (q : RowFilterPlan) :
    (∃ g ∈ List.foldl groupInsert acc plans, q ∈ g.2) ↔
      (∃ g ∈ acc, q ∈ g.2) ∨ q ∈ plans := by
  induction plans generalizing acc with
  | nil => simp
  | cons p rest ih =>
    rw [List.foldl_cons]
    constructor
    · intro h
      rcases (ih (groupInsert acc p)).mp h with h1 | h1
      · rcases (groupInsert_mem acc p q).mp h1 with h2 | h2
        · exact Or.inl h2
        · exact Or.inr (by simp [h2])
      · exact Or.inr (List.mem_cons.mpr (Or.inr h1))
    · intro h
      apply (ih (groupInsert acc p)).mpr
      rcases h with h | h
      · exact Or.inl ((groupInsert_mem acc p q).mpr (Or.inl h))
      · rcases List.mem_cons.mp h with h2 | h2
        · exact Or.inl ((groupInsert_mem acc p q).mpr (Or.inr h2))
        · exact Or.inr h2

theorem groupPlans_deny_iff (plans : List RowFilterPlan) :
    ((groupPlans plans).any
        (fun g => g.2.any (fun p => p.kind = "deny")) = true) ↔
      ∃ p ∈ plans, p.kind = "deny" := by
  unfold groupPlans
  rw [List.any_eq_true]
  constructor
  · rintro ⟨g, hg, hdeny⟩
    rw [List.any_eq_true] at hdeny
    obtain ⟨q, hq, hkind⟩ := hdeny
    have := (foldl_groupInsert_mem plans [] q).mp ⟨g, hg, hq⟩
    simp at this
    exact ⟨q, this, by simpa using hkind⟩
  · rintro ⟨q, hq, hkind⟩
    obtain ⟨g, hg, hgq⟩ := (foldl_groupInsert_mem plans [] q).mpr (Or.inr hq)
    exact ⟨g, hg, List.any_eq_true.mpr ⟨q, hgq, by simpa using hkind⟩⟩

/-- C7: whenever at least one row-filter plan is a `deny`, the rewriter
injects the boolean literal `FALSE` on the top-level `SELECT`'s `WHERE`
clause — AND-combined with the existing `WHERE` condition when there is
one — and returns at once: every other part of the AST (projections,
FROM, joins, ORDER BY, CTEs) is returned untouched, so no predicate plan
is applied to any `SELECT`. -/
theorem deny_plan_injects_false_and_returns (fuel : Nat)
    (w d : Option SqlAst) (p : List SqlAst) (fr : Option SqlAst)
    (j : List SqlAst) (o : Option SqlAst) (plans : List RowFilterPlan)
    (hdeny : ∃ pl ∈ plans, pl.kind = "deny") :
    (apply_row_filter_plans (fuel + 1) (.selectStmt w d p fr j none o) plans =
        .ok (.selectStmt w d p fr j (some (.whereNode (.boolNode false))) o)) ∧
    (∀ ex : SqlAst,
        apply_row_filter_plans (fuel + 1)
            (.selectStmt w d p fr j (some (.whereNode ex)) o) plans =
          .ok (.selectStmt w d p fr j
            (some (.whereNode (.andNode ex (.boolNode false)))) o)) := by
  have hif : ((groupPlans plans).any
      (fun g => g.2.any (fun p => p.kind = "deny")) = true) :=
    (groupPlans_deny_iff plans).mpr hdeny
  constructor
  · simp [apply_row_filter_plans, hif, replaceFirstSelF, replaceGo,
      addWhereSel, Bind.bind, Except.bind]
  · intro ex
    simp [apply_row_filter_plans, hif, replaceFirstSelF, replaceGo,
      addWhereSel, Bind.bind, Except.bind]

/-- C7 witness: a single `deny` plan against a concrete one-table query;
the result is exactly the same select with `WHERE FALSE`. -/
theorem deny_plan_injects_false_and_returns_witness :
    apply_row_filter_plans 1
        (.selectStmt none none [.star]
          (some (.fromNode (some (.tableNode "t" none none)) [])) [] none none)
        [⟨"t", "deny", none⟩] =
      .ok (.selectStmt none none [.star]
          (some (.fromNode (some (.tableNode "t" none none)) [])) []
          (some (.whereNode (.boolNode false))) none) :=
  (deny_plan_injects_false_and_returns 0 none none [.star]
      (some (.fromNode (some (.tableNode "t" none none)) [])) [] none
      [⟨"t", "deny", none⟩]
      ⟨⟨"t", "deny", none⟩, List.mem_singleton.mpr rfl, rfl⟩).1

end DatasetApi


namespace DatasetApi

/-! ## Heap model of sqlglot object mutation (for the frame claim)

`apply_row_filter_plans` mutates Python objects in place (`col.set`,
`select.set`, `existing.set`) but only ever on objects created by
`ast.copy()` / `expr.copy()`.  To state that the *inputs* are never
mutated we model the object graph explicitly: a heap of nodes addressed by
index, `copy` as fresh allocation, and `set` as in-place update.  The node
vocabulary covers what the rewriter touches: selects with projections,
FROM sources and a WHERE slot, tables, columns with an optional qualifier,
literals, `AND`, and generic binary operators for predicate templates. -/

inductive HNode where
  | selectN (projs : List Nat) (froms : List Nat) (whereArg : Option Nat)
  | tableN (name : String) (aliasArg : Option String)
  | columnN (name : String) (qual : Option String)
  | boolN (b : Bool)
  | litN (s : String)
  | andN (l r : Nat)
  | binN (op : String) (l r : Nat)
deriving Repr, DecidableEq

abbrev Heap := List HNode

def HNode.childAddrs : HNode → List Nat
  | .selectN projs froms wh =>
    projs ++ froms ++ (match wh with | some a => [a] | none => [])
  | .tableN _ _ => []
  | .columnN _ _ => []
  | .boolN _ => []
  | .litN _ => []
  | .andN l r => [l, r]
  | .binN _ l r => [l, r]

/-- Every node's children point inside the heap. -/
def HeapWf (h : Heap) : Prop :=
  ∀ nd ∈ h, ∀ b ∈ nd.childAddrs, b < h.length

/-- The heaps agree on all addresses below `n`. -/
def agreesBelow (n : Nat) (h h' : Heap) : Prop :=
  ∀ i, i < n → h'.get? i = h.get? i

/-- Every node at an address `≥ n` has children at addresses `≥ n` (and
inside the heap). -/
def HighClosed (n : Nat) (h : Heap) : Prop :=
  ∀ i nd, n ≤ i → h.get? i = some nd → ∀ b ∈ nd.childAddrs, n ≤ b ∧ b < h.length

theorem agreesBelow_rfl (n : Nat) (h : Heap) : agreesBelow n h h :=
  fun _ _ => rfl

theorem agreesBelow_trans {n : Nat} {h1 h2 h3 : Heap}
    (a : agreesBelow n h1 h2) (b : agreesBelow n h2 h3) :
    agreesBelow n h1 h3 :=
  fun i hi => (b i hi).trans (a i hi)

theorem agreesBelow_append (n : Nat) (h ext : Heap) (hn : n ≤ h.length) :
    agreesBelow n h (h ++ ext) := by
  intro i hi
  rw [List.get?_append]
  omega

theorem agreesBelow_set (n : Nat) (h : Heap) (a : Nat) (nd : HNode)
    (ha : n ≤ a) : agreesBelow n h (h.set a nd) := by
  intro i hi
  rw [List.get?_set_ne]
  omega

/-! ### Deep copy (`Expression.copy()`): fresh allocation -/

mutual
def copyN : Nat → Heap → Nat → Option (Heap × Nat)
  | 0, _, _ => none
  | fuel + 1, h, a => do
    let nd ← h.get? a
    match nd with
    | .selectN projs froms wh => do
        let (h1, projs2) ← copyList fuel h projs
        let (h2, froms2) ← copyList fuel h1 froms
        let (h3, wh2) ← copyOpt fuel h2 wh
        some (h3 ++ [.selectN projs2 froms2 wh2], h3.length)
    | .tableN n al => some (h ++ [.tableN n al], h.length)
    | .columnN n q => some (h ++ [.columnN n q], h.length)
    | .boolN b => some (h ++ [.boolN b], h.length)
    | .litN s => some (h ++ [.litN s], h.length)
    | .andN l r => do
        let (h1, l2) ← copyN fuel h l
        let (h2, r2) ← copyN fuel h1 r
        some (h2 ++ [.andN l2 r2], h2.length)
    | .binN op l r => do
        let (h1, l2) ← copyN fuel h l
        let (h2, r2) ← copyN fuel h1 r
        some (h2 ++ [.binN op l2 r2], h2.length)

def copyList : Nat → Heap → List Nat → Option (Heap × List Nat)
  | 0, _, _ => none
  | _ + 1, h, [] => some (h, [])
  | fuel + 1, h, a :: rest => do
      let (h1, a2) ← copyN fuel h a
      let (h2, rest2) ← copyList fuel h1 rest
      some (h2, a2 :: rest2)

def copyOpt : Nat → Heap → Option Nat → Option (Heap × Option Nat)
  | 0, _, _ => none
  | _ + 1, h, none => some (h, none)
  | fuel + 1, h, some a => do
      let (h1, a2) ← copyN fuel h a
      some (h1, some a2)
end

end DatasetApi

namespace DatasetApi

theorem highClosed_of_len (h : Heap) : HighClosed h.length h := by
  intro i nd hi hget
  have hnone : h.get? i = none := List.get?_eq_none.mpr hi
  rw [hnone] at hget
  exact absurd hget (by simp)

theorem highClosed_append_one {n : Nat} {h : Heap} (hc : HighClosed n h)
    (nd : HNode) (hnd : ∀ b ∈ nd.childAddrs, n ≤ b ∧ b < h.length + 1) :
    HighClosed n (h ++ [nd]) := by
  intro i nd' hi hget b hb
  by_cases hlt : i < h.length
  · rw [List.get?_append hlt] at hget
    have hres := hc i nd' hi hget b hb
    refine ⟨hres.1, ?_⟩
    simp only [List.length_append, List.length_singleton]
    omega
  · have hle : h.length ≤ i := by omega
    rcases Nat.eq_or_lt_of_le hle with heq | hlt2
    · have : (h ++ [nd]).get? h.length = some nd := List.get?_concat_length h nd
      rw [heq] at this
      rw [this] at hget
      injection hget with hndeq
      subst hndeq
      have hres := hnd b hb
      refine ⟨hres.1, ?_⟩
      simp only [List.length_append, List.length_singleton]
      omega
    · have hnone : (h ++ [nd]).get? i = none := by
        apply List.get?_eq_none.mpr
        simp only [List.length_append, List.length_singleton]
        omega
      rw [hnone] at hget
      exact absurd hget (by simp)

theorem highClosed_compose {m : Nat} {h1 h2 : Heap} (hm : m ≤ h1.length)
    (c1 : HighClosed m h1) (c2 : HighClosed h1.length h2)
    (hext : ∃ ext, h2 = h1 ++ ext) : HighClosed m h2 := by
  obtain ⟨ext, rfl⟩ := hext
  intro i nd hi hget b hb
  by_cases hlt : i < h1.length
  · rw [List.get?_append hlt] at hget
    have hres := c1 i nd hi hget b hb
    refine ⟨hres.1, ?_⟩
    simp only [List.length_append]
    omega
  · have hres := c2 i nd (by omega) hget b hb
    exact ⟨by omega, hres.2⟩

theorem ext_trans {h1 h2 h3 : Heap} (a : ∃ e, h2 = h1 ++ e)
    (b : ∃ e, h3 = h2 ++ e) : ∃ e, h3 = h1 ++ e := by
  obtain ⟨e1, rfl⟩ := a
  obtain ⟨e2, rfl⟩ := b
  exact ⟨e1 ++ e2, by simp⟩

theorem ext_len {h1 h2 : Heap} (a : ∃ e, h2 = h1 ++ e) :
    h1.length ≤ h2.length := by
  obtain ⟨e, rfl⟩ := a
  simp

end DatasetApi

namespace DatasetApi

/-- What a deep copy guarantees: the original heap is a prefix of the
result, the returned root is a fresh address, and every fresh node's
children are fresh addresses inside the heap. -/
def CopyOutN (h h1 : Heap) (r : Nat) : Prop :=
  (∃ e, h1 = h ++ e) ∧ h.length ≤ r ∧ r < h1.length ∧ HighClosed h.length h1

def CopyOutL (h h1 : Heap) (rs : List Nat) : Prop :=
  (∃ e, h1 = h ++ e) ∧ (∀ r ∈ rs, h.length ≤ r ∧ r < h1.length) ∧
    HighClosed h.length h1

def CopyOutO (h h1 : Heap) (r? : Option Nat) : Prop :=
  (∃ e, h1 = h ++ e) ∧ (∀ r, r? = some r → h.length ≤ r ∧ r < h1.length) ∧
    HighClosed h.length h1

theorem copyOut_leaf (h : Heap) (nd : HNode) (hleaf : nd.childAddrs = []) :
    CopyOutN h (h ++ [nd]) h.length := by
  refine ⟨⟨[nd], rfl⟩, le_refl _, by simp, ?_⟩
  apply highClosed_append_one (highClosed_of_len h)
  rw [hleaf]
  intro b hb
  exact absurd hb (by simp)

theorem copySpec (fuel : Nat) :
    (∀ h a h1 r, copyN fuel h a = some (h1, r) → CopyOutN h h1 r) ∧
    (∀ h as h1 rs, copyList fuel h as = some (h1, rs) → CopyOutL h h1 rs) ∧
    (∀ h a? h1 r?, copyOpt fuel h a? = some (h1, r?) → CopyOutO h h1 r?) := by
  induction fuel with
  | zero =>
    refine ⟨?_, ?_, ?_⟩
    · intro h a h1 r hc
      exact absurd hc (by simp [copyN])
    · intro h as h1 rs hc
      exact absurd hc (by simp [copyList])
    · intro h a? h1 r? hc
      exact absurd hc (by simp [copyOpt])
  | succ fuel ih =>
    obtain ⟨ihN, ihL, ihO⟩ := ih
    refine ⟨?_, ?_, ?_⟩
    · intro h a h1 r hc
      rw [copyN] at hc
      cases hget : h.get? a with
      | none => rw [hget] at hc; exact absurd hc (by simp)
      | some nd =>
        cases nd with
        | selectN projs froms wh =>
          rw [hget] at hc
          simp only [Option.bind_eq_bind, Option.some_bind] at hc
          rcases hA : copyList fuel h projs with _ | ⟨hA1, projs2⟩
          · rw [hA] at hc; exact absurd hc (by simp)
          · rw [hA] at hc
            simp only [Option.bind_eq_bind, Option.some_bind] at hc
            rcases hB : copyList fuel hA1 froms with _ | ⟨hB1, froms2⟩
            · rw [hB] at hc; exact absurd hc (by simp)
            · rw [hB] at hc
              simp only [Option.bind_eq_bind, Option.some_bind] at hc
              rcases hC : copyOpt fuel hB1 wh with _ | ⟨hC1, wh2⟩
              · rw [hC] at hc; exact absurd hc (by simp)
              · rw [hC] at hc
                simp only [Option.bind_eq_bind, Option.some_bind,
                  Option.some_inj, Prod.mk.injEq] at hc
                obtain ⟨rfl, rfl⟩ := hc
                obtain ⟨extA, boundsA, closedA⟩ := ihL h projs hA1 projs2 hA
                obtain ⟨extB, boundsB, closedB⟩ := ihL hA1 froms hB1 froms2 hB
                obtain ⟨extC, boundsC, closedC⟩ := ihO hB1 wh hC1 wh2 hC
                have lenA := ext_len extA
                have lenB := ext_len extB
                have lenC := ext_len extC
                have closedBC : HighClosed hA1.length hC1 :=
                  highClosed_compose lenB closedB closedC extC
                have closedAC : HighClosed h.length hC1 :=
                  highClosed_compose lenA closedA closedBC (ext_trans extB extC)
                refine ⟨ext_trans (ext_trans extA extB)
                    (ext_trans extC ⟨[_], rfl⟩), by omega, by simp, ?_⟩
                apply highClosed_append_one closedAC
                intro b hb
                simp only [HNode.childAddrs, List.mem_append] at hb
                rcases hb with hb | hb
                · rcases hb with hb | hb
                  · have := boundsA b hb
                    omega
                  · have := boundsB b hb
                    omega
                · cases hwh : wh2 with
                  | none => rw [hwh] at hb; simp at hb
                  | some w2 =>
                    rw [hwh] at hb
                    simp only [List.mem_singleton] at hb
                    have := boundsC w2 hwh
                    omega
        | tableN nm al =>
          rw [hget] at hc
          simp only [Option.bind_eq_bind, Option.some_bind,
            Option.some_inj, Prod.mk.injEq] at hc
          obtain ⟨rfl, rfl⟩ := hc
          exact copyOut_leaf h _ rfl
        | columnN nm q =>
          rw [hget] at hc
          simp only [Option.bind_eq_bind, Option.some_bind,
            Option.some_inj, Prod.mk.injEq] at hc
          obtain ⟨rfl, rfl⟩ := hc
          exact copyOut_leaf h _ rfl
        | boolN b =>
          rw [hget] at hc
          simp only [Option.bind_eq_bind, Option.some_bind,
            Option.some_inj, Prod.mk.injEq] at hc
          obtain ⟨rfl, rfl⟩ := hc
          exact copyOut_leaf h _ rfl
        | litN s =>
          rw [hget] at hc
          simp only [Option.bind_eq_bind, Option.some_bind,
            Option.some_inj, Prod.mk.injEq] at hc
          obtain ⟨rfl, rfl⟩ := hc
          exact copyOut_leaf h _ rfl
        | andN l rr =>
          rw [hget] at hc
          simp only [Option.bind_eq_bind, Option.some_bind] at hc
          rcases hA : copyN fuel h l with _ | ⟨hA1, l2⟩
          · rw [hA] at hc; exact absurd hc (by simp)
          · rw [hA] at hc
            simp only [Option.bind_eq_bind, Option.some_bind] at hc
            rcases hB : copyN fuel hA1 rr with _ | ⟨hB1, r2⟩
            · rw [hB] at hc; exact absurd hc (by simp)
            · rw [hB] at hc
              simp only [Option.bind_eq_bind, Option.some_bind,
                Option.some_inj, Prod.mk.injEq] at hc
              obtain ⟨rfl, rfl⟩ := hc
              obtain ⟨extA, lbA, ubA, closedA⟩ := ihN h l hA1 l2 hA
              obtain ⟨extB, lbB, ubB, closedB⟩ := ihN hA1 rr hB1 r2 hB
              have lenA := ext_len extA
              have lenB := ext_len extB
              have closedAB : HighClosed h.length hB1 :=
                highClosed_compose lenA closedA closedB extB
              refine ⟨ext_trans (ext_trans extA extB) ⟨[_], rfl⟩,
                by omega, by simp, ?_⟩
              apply highClosed_append_one closedAB
              intro b hb
              simp only [HNode.childAddrs, List.mem_cons,
                List.mem_singleton] at hb
              rcases hb with rfl | hb
              · omega
              · simp at hb
                subst hb
                omega
        | binN op l rr =>
          rw [hget] at hc
          simp only [Option.bind_eq_bind, Option.some_bind] at hc
          rcases hA : copyN fuel h l with _ | ⟨hA1, l2⟩
          · rw [hA] at hc; exact absurd hc (by simp)
          · rw [hA] at hc
            simp only [Option.bind_eq_bind, Option.some_bind] at hc
            rcases hB : copyN fuel hA1 rr with _ | ⟨hB1, r2⟩
            · rw [hB] at hc; exact absurd hc (by simp)
            · rw [hB] at hc
              simp only [Option.bind_eq_bind, Option.some_bind,
                Option.some_inj, Prod.mk.injEq] at hc
              obtain ⟨rfl, rfl⟩ := hc
              obtain ⟨extA, lbA, ubA, closedA⟩ := ihN h l hA1 l2 hA
              obtain ⟨extB, lbB, ubB, closedB⟩ := ihN hA1 rr hB1 r2 hB
              have lenA := ext_len extA
              have lenB := ext_len extB
              have closedAB : HighClosed h.length hB1 :=
                highClosed_compose lenA closedA closedB extB
              refine ⟨ext_trans (ext_trans extA extB) ⟨[_], rfl⟩,
                by omega, by simp, ?_⟩
              apply highClosed_append_one closedAB
              intro b hb
              simp only [HNode.childAddrs, List.mem_cons,
                List.mem_singleton] at hb
              rcases hb with rfl | hb
              · omega
              · simp at hb
                subst hb
                omega
    · intro h as h1 rs hc
      cases as with
      | nil =>
        rw [copyList] at hc
        simp only [Option.some_inj, Prod.mk.injEq] at hc
        obtain ⟨rfl, rfl⟩ := hc
        exact ⟨⟨[], by simp⟩, by simp, highClosed_of_len h⟩
      | cons a rest =>
        rw [copyList] at hc
        rcases hA : copyN fuel h a with _ | ⟨hA1, a2⟩
        · rw [hA] at hc; exact absurd hc (by simp)
        · rw [hA] at hc
          simp only [Option.bind_eq_bind, Option.some_bind] at hc
          rcases hB : copyList fuel hA1 rest with _ | ⟨hB1, rest2⟩
          · rw [hB] at hc; exact absurd hc (by simp)
          · rw [hB] at hc
            simp only [Option.bind_eq_bind, Option.some_bind,
              Option.some_inj, Prod.mk.injEq] at hc
            obtain ⟨rfl, rfl⟩ := hc
            obtain ⟨extA, lbA, ubA, closedA⟩ := ihN h a hA1 a2 hA
            obtain ⟨extB, boundsB, closedB⟩ := ihL hA1 rest hB1 rest2 hB
            have lenA := ext_len extA
            have lenB := ext_len extB
            refine ⟨ext_trans extA extB, ?_,
              highClosed_compose lenA closedA closedB extB⟩
            intro r hr
            rcases List.mem_cons.mp hr with rfl | hr
            · omega
            · have := boundsB r hr
              omega
    · intro h a? h1 r? hc
      cases a? with
      | none =>
        rw [copyOpt] at hc
        simp only [Option.some_inj, Prod.mk.injEq] at hc
        obtain ⟨rfl, rfl⟩ := hc
        refine ⟨⟨[], by simp⟩, ?_, highClosed_of_len h⟩
        intro r hr
        exact absurd hr (by simp)
      | some a =>
        rw [copyOpt] at hc
        rcases hA : copyN fuel h a with _ | ⟨hA1, a2⟩
        · rw [hA] at hc; exact absurd hc (by simp)
        · rw [hA] at hc
          simp only [Option.bind_eq_bind, Option.some_bind,
            Option.some_inj, Prod.mk.injEq] at hc
          obtain ⟨rfl, rfl⟩ := hc
          obtain ⟨extA, lbA, ubA, closedA⟩ := ihN h a hA1 a2 hA
          refine ⟨extA, ?_, closedA⟩
          intro r hr
          injection hr with hr
          subst hr
          exact ⟨lbA, ubA⟩

end DatasetApi

namespace DatasetApi

/-! ### Heap-level row-filter rewriter (apply.py) -/

/-- A row-filter plan whose predicate template lives in the heap. -/
structure HPlan where
  table : String
  kind : String
  predicate_template : Option Nat
deriving Repr, DecidableEq

def groupInsertH (gs : List (String × List HPlan)) (p : HPlan) :
    List (String × List HPlan) :=
  if gs.any (fun kv => kv.1 == p.table) then
    gs.map (fun kv => if kv.1 == p.table then (kv.1, kv.2 ++ [p]) else kv)
  else gs ++ [(p.table, [p])]

/-- The dict `plans_by_table`: `setdefault(p.table, []).append(p)` over the plans. -/
def groupPlansH (plans : List HPlan) : List (String × List HPlan) :=
  plans.foldl groupInsertH []

/-- The deny scan: `for ps in plans_by_table.values(): for p in ps: if p.kind == "deny"`. -/
def hPlanHasDeny (gs : List (String × List HPlan)) : Bool :=
  gs.any (fun kv => kv.2.any (fun p => p.kind == "deny"))

/-- The call `out.find(exp.Select)`: first select in a pre-order walk (worklist). -/
def findSelF : Nat → Heap → List Nat → Option (Option Nat)
  | 0, _, _ => none
  | _ + 1, _, [] => some none
  | fuel + 1, h, a :: rest =>
    match h.get? a with
    | none => none
    | some nd =>
      match nd with
      | .selectN _ _ _ => some (some a)
      | _ => findSelF fuel h (nd.childAddrs ++ rest)

/-- The walk `out.find_all(exp.Select)` materialised as a pre-order snapshot. -/
def allSelsF : Nat → Heap → List Nat → Option (List Nat)
  | 0, _, _ => none
  | _ + 1, _, [] => some []
  | fuel + 1, h, a :: rest =>
    match h.get? a with
    | none => none
    | some nd =>
      match allSelsF fuel h (nd.childAddrs ++ rest) with
      | none => none
      | some sels =>
        match nd with
        | .selectN _ _ _ => some (a :: sels)
        | _ => some sels

/-- The walk `e.find_all(exp.Column)` over the copied template. -/
def collectColsF : Nat → Heap → List Nat → Option (List Nat)
  | 0, _, _ => none
  | _ + 1, _, [] => some []
  | fuel + 1, h, a :: rest =>
    match h.get? a with
    | none => none
    | some nd =>
      match collectColsF fuel h (nd.childAddrs ++ rest) with
      | none => none
      | some cs =>
        match nd with
        | .columnN _ _ => some (a :: cs)
        | _ => some cs

/-- The helper `_tables_in_select`: tables reachable from this select without crossing
a nested select (the nearest-ancestor-select test). -/
def tablesInSelF : Nat → Heap → List Nat → Option (List Nat)
  | 0, _, _ => none
  | _ + 1, _, [] => some []
  | fuel + 1, h, a :: rest =>
    match h.get? a with
    | none => none
    | some nd =>
      match nd with
      | .selectN _ _ _ => tablesInSelF fuel h rest
      | .tableN _ _ =>
        match tablesInSelF fuel h (nd.childAddrs ++ rest) with
        | none => none
        | some ts => some (a :: ts)
      | _ => tablesInSelF fuel h (nd.childAddrs ++ rest)

/-- The helper `_table_name`: the table identifier. -/
def tableNameH (h : Heap) (t : Nat) : Option String :=
  match h.get? t with
  | some (.tableN nm _) => some nm
  | _ => none

/-- The accessor `table.alias_or_name`. -/
def aliasOrNameH (h : Heap) (t : Nat) : Option String :=
  match h.get? t with
  | some (.tableN nm al) => some (al.getD nm)
  | _ => none

/-- The tests `name in plans_by_table` / `plans_by_table[name]`. -/
def lookupGroup (gs : List (String × List HPlan)) (name : String) :
    Option (List HPlan) :=
  (gs.find? (fun kv => kv.1 == name)).map (fun kv => kv.2)

/-- In-place `col.set("table", Identifier(alias))` on each unqualified
column of the copied template. -/
def setQuals (aname : String) : Heap → List Nat → Option Heap
  | h, [] => some h
  | h, c :: rest =>
    match h.get? c with
    | some (.columnN nm q) =>
      match q with
      | none => setQuals aname (h.set c (.columnN nm (some aname))) rest
      | some _ => setQuals aname h rest
    | _ => none

/-- The helper `_qualify_columns`: copy the template, then mutate the copy. -/
def qualifyH (fuel : Nat) (h : Heap) (tmpl : Nat) (aname : String) :
    Option (Heap × Nat) :=
  match copyN fuel h tmpl with
  | none => none
  | some (h1, e) =>
    match collectColsF fuel h1 [e] with
    | none => none
    | some cols =>
      match setQuals aname h1 cols with
      | none => none
      | some h2 => some (h2, e)

/-- The helper `_add_where`: AND onto an existing WHERE (mutating the where slot) or
install a fresh WHERE, by updating the select node in place. -/
def addWhereH (h : Heap) (sel : Nat) (cond : Nat) : Option Heap :=
  match h.get? sel with
  | some (.selectN projs froms wh) =>
    match wh with
    | some w => some ((h ++ [HNode.andN w cond]).set sel
        (.selectN projs froms (some h.length)))
    | none => some (h.set sel (.selectN projs froms (some cond)))
  | _ => none

/-- The deny branch: find the top select (if none, return unchanged),
allocate `FALSE` and AND it onto its WHERE. -/
def applyDenyH (fuel : Nat) (h : Heap) (out : Nat) : Option Heap :=
  match findSelF fuel h [out] with
  | none => none
  | some none => some h
  | some (some top) => addWhereH (h ++ [HNode.boolN false]) top h.length

/-- The loop `for plan in plans_by_table[name]`: qualify + add-where per predicate plan. -/
def applyPlanList (fuel : Nat) (sel : Nat) (aname : String) :
    Heap → List HPlan → Option Heap
  | h, [] => some h
  | h, p :: rest =>
    if p.kind == "predicate" then
      match p.predicate_template with
      | some tmpl =>
        match qualifyH fuel h tmpl aname with
        | none => none
        | some (h1, cond) =>
          match addWhereH h1 sel cond with
          | none => none
          | some h2 => applyPlanList fuel sel aname h2 rest
      | none => applyPlanList fuel sel aname h rest
    else applyPlanList fuel sel aname h rest

/-- The loop `for table in tables`: look the table name up in `plans_by_table`. -/
def applyTables (fuel : Nat) (gs : List (String × List HPlan)) (sel : Nat) :
    Heap → List Nat → Option Heap
  | h, [] => some h
  | h, t :: rest =>
    match tableNameH h t with
    | none => none
    | some name =>
      match lookupGroup gs name with
      | none => applyTables fuel gs sel h rest
      | some ps =>
        match aliasOrNameH h t with
        | none => none
        | some aname =>
          match applyPlanList fuel sel aname h ps with
          | none => none
          | some h1 => applyTables fuel gs sel h1 rest

/-- The loop `for select in out.find_all(exp.Select)` over the snapshot. -/
def applySelects (fuel : Nat) (gs : List (String × List HPlan)) :
    Heap → List Nat → Option Heap
  | h, [] => some h
  | h, s :: rest =>
    match h.get? s with
    | none => none
    | some nd =>
      match tablesInSelF fuel h nd.childAddrs with
      | none => none
      | some tabs =>
        match applyTables fuel gs s h tabs with
        | none => none
        | some h1 => applySelects fuel gs h1 rest

/-- The function `apply_row_filter_plans` on the heap: group plans, copy the AST, then
either the deny branch or the per-select predicate pass; returns the new
heap and the root of the copy. -/
def apply_row_filter_plansH (fuel : Nat) (h : Heap) (ast : Nat)
    (plans : List HPlan) : Option (Heap × Nat) :=
  match copyN fuel h ast with
  | none => none
  | some (h1, out) =>
    match hPlanHasDeny (groupPlansH plans) with
    | true =>
      match applyDenyH fuel h1 out with
      | none => none
      | some h2 => some (h2, out)
    | false =>
      match allSelsF fuel h1 [out] with
      | none => none
      | some sels =>
        match applySelects fuel (groupPlansH plans) h1 sels with
        | none => none
        | some h2 => some (h2, out)

end DatasetApi

namespace DatasetApi

theorem agreesBelow_mono {n m : Nat} {h h2 : Heap} (hnm : n ≤ m)
    (ha : agreesBelow m h h2) : agreesBelow n h h2 :=
  fun i hi => ha i (by omega)

/-- Under `HighClosed n`, a worklist walk started at addresses `≥ n` only
ever returns a select address `≥ n`. -/
theorem findSelF_high {n : Nat} :
    ∀ fuel (h : Heap) ws top, findSelF fuel h ws = some (some top) →
      HighClosed n h → (∀ a ∈ ws, n ≤ a) → n ≤ top := by
  intro fuel
  induction fuel with
  | zero =>
    intro h ws top hf _ _
    exact absurd hf (by simp [findSelF])
  | succ fuel ih =>
    intro h ws top hf hc hws
    cases ws with
    | nil =>
      rw [findSelF] at hf
      exact absurd hf (by simp)
    | cons a rest =>
      rw [findSelF] at hf
      cases hget : h.get? a with
      | none => rw [hget] at hf; exact absurd hf (by simp)
      | some nd =>
        rw [hget] at hf
        have hna : n ≤ a := hws a (by simp)
        have hkids : ∀ b ∈ nd.childAddrs, n ≤ b :=
          fun b hb => (hc a nd hna hget b hb).1
        have hrest : ∀ x ∈ nd.childAddrs ++ rest, n ≤ x := by
          intro x hx
          rcases List.mem_append.mp hx with hx | hx
          · exact hkids x hx
          · exact hws x (List.mem_cons_of_mem _ hx)
        cases nd with
        | selectN p f w =>
          simp only [Option.some_inj] at hf
          omega
        | tableN nm al => exact ih h _ top hf hc hrest
        | columnN nm q => exact ih h _ top hf hc hrest
        | boolN b => exact ih h _ top hf hc hrest
        | litN s => exact ih h _ top hf hc hrest
        | andN l r => exact ih h _ top hf hc hrest
        | binN op l r => exact ih h _ top hf hc hrest

/-- All selects found by the snapshot walk lie at addresses `≥ n`. -/
theorem allSelsF_high {n : Nat} :
    ∀ fuel (h : Heap) ws sels, allSelsF fuel h ws = some sels →
      HighClosed n h → (∀ a ∈ ws, n ≤ a) → ∀ s ∈ sels, n ≤ s := by
  intro fuel
  induction fuel with
  | zero =>
    intro h ws sels hf _ _
    exact absurd hf (by simp [allSelsF])
  | succ fuel ih =>
    intro h ws sels hf hc hws
    cases ws with
    | nil =>
      rw [allSelsF] at hf
      simp only [Option.some_inj] at hf
      subst hf
      intro s hs
      exact absurd hs (by simp)
    | cons a rest =>
      rw [allSelsF] at hf
      split at hf
      · exact absurd hf (by simp)
      · next nd hget =>
        have hna : n ≤ a := hws a (by simp)
        have hkids : ∀ b ∈ nd.childAddrs, n ≤ b :=
          fun b hb => (hc a nd hna hget b hb).1
        have hrest : ∀ x ∈ nd.childAddrs ++ rest, n ≤ x := by
          intro x hx
          rcases List.mem_append.mp hx with hx | hx
          · exact hkids x hx
          · exact hws x (List.mem_cons_of_mem _ hx)
        split at hf
        · exact absurd hf (by simp)
        · next sels2 hrec =>
          have hih : ∀ s ∈ sels2, n ≤ s := ih h _ sels2 hrec hc hrest
          split at hf
          · simp only [Option.some_inj] at hf
            subst hf
            intro s hs
            rcases List.mem_cons.mp hs with rfl | hs
            · exact hna
            · exact hih s hs
          · simp only [Option.some_inj] at hf
            subst hf
            exact hih

/-- All columns found in the copied template lie at addresses `≥ n`. -/
theorem collectColsF_high {n : Nat} :
    ∀ fuel (h : Heap) ws cs, collectColsF fuel h ws = some cs →
      HighClosed n h → (∀ a ∈ ws, n ≤ a) → ∀ c ∈ cs, n ≤ c := by
  intro fuel
  induction fuel with
  | zero =>
    intro h ws cs hf _ _
    exact absurd hf (by simp [collectColsF])
  | succ fuel ih =>
    intro h ws cs hf hc hws
    cases ws with
    | nil =>
      rw [collectColsF] at hf
      simp only [Option.some_inj] at hf
      subst hf
      intro c hcm
      exact absurd hcm (by simp)
    | cons a rest =>
      rw [collectColsF] at hf
      split at hf
      · exact absurd hf (by simp)
      · next nd hget =>
        have hna : n ≤ a := hws a (by simp)
        have hkids : ∀ b ∈ nd.childAddrs, n ≤ b :=
          fun b hb => (hc a nd hna hget b hb).1
        have hrest : ∀ x ∈ nd.childAddrs ++ rest, n ≤ x := by
          intro x hx
          rcases List.mem_append.mp hx with hx | hx
          · exact hkids x hx
          · exact hws x (List.mem_cons_of_mem _ hx)
        split at hf
        · exact absurd hf (by simp)
        · next cs2 hrec =>
          have hih : ∀ c ∈ cs2, n ≤ c := ih h _ cs2 hrec hc hrest
          split at hf
          · simp only [Option.some_inj] at hf
            subst hf
            intro c hcm
            rcases List.mem_cons.mp hcm with rfl | hcm
            · exact hna
            · exact hih c hcm
          · simp only [Option.some_inj] at hf
            subst hf
            exact hih

end DatasetApi

namespace DatasetApi

/-- Setting qualifiers on columns at addresses `≥ n` leaves the low heap
untouched and preserves the length. -/
theorem setQuals_frame {n : Nat} (aname : String) :
    ∀ cols (h h2 : Heap), setQuals aname h cols = some h2 →
      (∀ c ∈ cols, n ≤ c) → agreesBelow n h h2 ∧ h2.length = h.length := by
  intro cols
  induction cols with
  | nil =>
    intro h h2 hs hcs
    rw [setQuals] at hs
    simp only [Option.some_inj] at hs
    subst hs
    exact ⟨agreesBelow_rfl n h, rfl⟩
  | cons c rest ih =>
    intro h h2 hs hcs
    rw [setQuals] at hs
    split at hs
    · next nm q hget =>
      split at hs
      · have hrec := ih _ h2 hs (fun x hx => hcs x (List.mem_cons_of_mem _ hx))
        refine ⟨agreesBelow_trans
          (agreesBelow_set n h c _ (hcs c (by simp))) hrec.1, ?_⟩
        rw [hrec.2]
        simp
      · exact ih h h2 hs (fun x hx => hcs x (List.mem_cons_of_mem _ hx))
    · exact absurd hs (by simp)

/-- The helper `_qualify_columns` never touches addresses below `n ≤ h.length`: the
copy is fresh and the qualifier writes land inside the copy. -/
theorem qualifyH_frame {n : Nat} (fuel : Nat) (h : Heap) (tmpl : Nat)
    (aname : String) (h2 : Heap) (e : Nat) (hn : n ≤ h.length)
    (hq : qualifyH fuel h tmpl aname = some (h2, e)) :
    agreesBelow n h h2 ∧ n ≤ h2.length := by
  rw [qualifyH] at hq
  split at hq
  · exact absurd hq (by simp)
  · next h1 e1 hcp =>
    obtain ⟨ext1, lb1, ub1, closed1⟩ := (copySpec fuel).1 h tmpl h1 e1 hcp
    have hlen1 : h.length ≤ h1.length := ext_len ext1
    split at hq
    · exact absurd hq (by simp)
    · next cols hcols =>
      have hcolsHigh : ∀ c ∈ cols, h.length ≤ c := by
        refine collectColsF_high fuel h1 [e1] cols hcols closed1 ?_
        intro a ha
        simp only [List.mem_singleton] at ha
        omega
      split at hq
      · exact absurd hq (by simp)
      · next h3 hsq =>
        simp only [Option.some_inj, Prod.mk.injEq] at hq
        obtain ⟨rfl, rfl⟩ := hq
        have hsf := setQuals_frame (n := n) aname cols h1 h3 hsq
          (fun c hcm => le_trans hn (hcolsHigh c hcm))
        have hagree1 : agreesBelow n h h1 := by
          obtain ⟨e0, rfl⟩ := ext1
          exact agreesBelow_append n h e0 hn
        refine ⟨agreesBelow_trans hagree1 hsf.1, ?_⟩
        rw [hsf.2]
        omega

/-- The helper `_add_where` only allocates and rewrites the select node at `sel ≥ n`. -/
theorem addWhereH_frame {n : Nat} (h : Heap) (sel cond : Nat) (h2 : Heap)
    (hsel : n ≤ sel) (hn : n ≤ h.length)
    (ha : addWhereH h sel cond = some h2) :
    agreesBelow n h h2 ∧ n ≤ h2.length := by
  rw [addWhereH] at ha
  split at ha
  · next projs froms wh hget =>
    split at ha
    · next w =>
      simp only [Option.some_inj] at ha
      subst ha
      refine ⟨agreesBelow_trans
        (agreesBelow_append n h [HNode.andN w cond] hn)
        (agreesBelow_set n _ sel _ hsel), ?_⟩
      simp
      omega
    · simp only [Option.some_inj] at ha
      subst ha
      refine ⟨agreesBelow_set n h sel _ hsel, ?_⟩
      simp
      omega
  · exact absurd ha (by simp)

/-- The deny branch only touches the copy. -/
theorem applyDenyH_frame {n : Nat} (fuel : Nat) (h : Heap) (out : Nat)
    (h2 : Heap) (hn : n ≤ h.length) (hout : n ≤ out) (hc : HighClosed n h)
    (ha : applyDenyH fuel h out = some h2) :
    agreesBelow n h h2 ∧ n ≤ h2.length := by
  rw [applyDenyH] at ha
  split at ha
  · exact absurd ha (by simp)
  · next hf =>
    simp only [Option.some_inj] at ha
    subst ha
    exact ⟨agreesBelow_rfl n h, hn⟩
  · next top hf =>
    have htop : n ≤ top := by
      refine findSelF_high fuel h [out] top hf hc ?_
      intro a ha2
      simp only [List.mem_singleton] at ha2
      omega
    have haw := addWhereH_frame (n := n) (h ++ [HNode.boolN false]) top
      h.length h2 htop (by simp; omega) ha
    exact ⟨agreesBelow_trans
      (agreesBelow_append n h [HNode.boolN false] hn) haw.1, haw.2⟩

end DatasetApi

namespace DatasetApi

/-- The per-plan loop over one select only allocates fresh nodes and
rewrites nodes at addresses `≥ n`. -/
theorem applyPlanList_frame {n : Nat} (fuel sel : Nat) (aname : String)
    (hsel : n ≤ sel) :
    ∀ ps (h h2 : Heap), applyPlanList fuel sel aname h ps = some h2 →
      n ≤ h.length → agreesBelow n h h2 ∧ n ≤ h2.length := by
  intro ps
  induction ps with
  | nil =>
    intro h h2 hp hn
    rw [applyPlanList] at hp
    simp only [Option.some_inj] at hp
    subst hp
    exact ⟨agreesBelow_rfl n h, hn⟩
  | cons p rest ih =>
    intro h h2 hp hn
    rw [applyPlanList] at hp
    split at hp
    · split at hp
      · next tmpl htm =>
        split at hp
        · exact absurd hp (by simp)
        · next h1 cond hq =>
          have hqf := qualifyH_frame (n := n) fuel h tmpl aname h1 cond hn hq
          split at hp
          · exact absurd hp (by simp)
          · next h2a haw =>
            have hawf := addWhereH_frame (n := n) h1 sel cond h2a hsel
              hqf.2 haw
            have hrec := ih h2a h2 hp hawf.2
            exact ⟨agreesBelow_trans hqf.1
              (agreesBelow_trans hawf.1 hrec.1), hrec.2⟩
      · exact ih h h2 hp hn
    · exact ih h h2 hp hn

/-- The per-table loop over one select is frame-preserving below `n`. -/
theorem applyTables_frame {n : Nat} (fuel : Nat)
    (gs : List (String × List HPlan)) (sel : Nat) (hsel : n ≤ sel) :
    ∀ ts (h h2 : Heap), applyTables fuel gs sel h ts = some h2 →
      n ≤ h.length → agreesBelow n h h2 ∧ n ≤ h2.length := by
  intro ts
  induction ts with
  | nil =>
    intro h h2 ht hn
    rw [applyTables] at ht
    simp only [Option.some_inj] at ht
    subst ht
    exact ⟨agreesBelow_rfl n h, hn⟩
  | cons t rest ih =>
    intro h h2 ht hn
    rw [applyTables] at ht
    split at ht
    · exact absurd ht (by simp)
    · next name htn =>
      split at ht
      · exact ih h h2 ht hn
      · next ps hlg =>
        split at ht
        · exact absurd ht (by simp)
        · next aname han =>
          split at ht
          · exact absurd ht (by simp)
          · next h1 hpl =>
            have hf := applyPlanList_frame (n := n) fuel sel aname hsel
              ps h h1 hpl hn
            have hrec := ih h1 h2 ht hf.2
            exact ⟨agreesBelow_trans hf.1 hrec.1, hrec.2⟩

/-- The select loop is frame-preserving below `n` when every snapshot
select address is `≥ n`. -/
theorem applySelects_frame {n : Nat} (fuel : Nat)
    (gs : List (String × List HPlan)) :
    ∀ sels (h h2 : Heap), applySelects fuel gs h sels = some h2 →
      n ≤ h.length → (∀ s ∈ sels, n ≤ s) →
      agreesBelow n h h2 ∧ n ≤ h2.length := by
  intro sels
  induction sels with
  | nil =>
    intro h h2 hs hn _
    rw [applySelects] at hs
    simp only [Option.some_inj] at hs
    subst hs
    exact ⟨agreesBelow_rfl n h, hn⟩
  | cons s rest ih =>
    intro h h2 hs hn hsels
    rw [applySelects] at hs
    split at hs
    · exact absurd hs (by simp)
    · next nd hget =>
      split at hs
      · exact absurd hs (by simp)
      · next tabs hts =>
        split at hs
        · exact absurd hs (by simp)
        · next h1 hat =>
          have hf := applyTables_frame (n := n) fuel gs s
            (hsels s (by simp)) tabs h h1 hat hn
          have hrec := ih h1 h2 hs hf.2
            (fun x hx => hsels x (List.mem_cons_of_mem _ hx))
          exact ⟨agreesBelow_trans hf.1 hrec.1, hrec.2⟩

/-- Low-address agreement plus length growth gives literal prefix
preservation. -/
theorem take_of_agreesBelow (h h2 : Heap) (ha : agreesBelow h.length h h2)
    (hl : h.length ≤ h2.length) : h2.take h.length = h := by
  apply List.ext_get?
  intro i
  by_cases hi : i < h.length
  · rw [List.get?_take hi]
    exact ha i hi
  · have h1 : (h2.take h.length).get? i = none := by
      apply List.get?_eq_none.mpr
      simp only [List.length_take]
      omega
    have h3 : h.get? i = none := List.get?_eq_none.mpr (by omega)
    rw [h1, h3]

end DatasetApi

namespace DatasetApi

/-- C10: `apply_row_filter_plans` never mutates its inputs.  In the heap
model every write it performs lands at an address allocated after the
call began, so whenever the heap-level rewriter succeeds, the whole
original heap -- the input AST and every plan's `predicate_template`
among it -- is preserved verbatim: the first `h.length` cells of the
final heap equal the initial heap.  Column qualification happens on a
fresh copy of the template and the injected WHERE rewrites only the
copied select nodes. -/
theorem apply_row_filter_plans_inputs_unchanged (fuel : Nat) (h : Heap)
    (ast : Nat) (plans : List HPlan) (h2 : Heap) (out : Nat)
    (hc : apply_row_filter_plansH fuel h ast plans = some (h2, out)) :
    h2.take h.length = h := by
  rw [apply_row_filter_plansH] at hc
  split at hc
  · exact absurd hc (by simp)
  · next h1 out1 hcp =>
    obtain ⟨ext1, lb1, ub1, closed1⟩ := (copySpec fuel).1 h ast h1 out1 hcp
    have hn1 : h.length ≤ h1.length := ext_len ext1
    have hag1 : agreesBelow h.length h h1 := by
      obtain ⟨e0, rfl⟩ := ext1
      exact agreesBelow_append _ h e0 (le_refl _)
    split at hc
    · -- deny branch
      split at hc
      · exact absurd hc (by simp)
      · next h3 hdeny =>
        simp only [Option.some_inj, Prod.mk.injEq] at hc
        obtain ⟨rfl, rfl⟩ := hc
        have hf := applyDenyH_frame (n := h.length) fuel h1 out1 h3
          hn1 lb1 closed1 hdeny
        exact take_of_agreesBelow h h3 (agreesBelow_trans hag1 hf.1) hf.2
    · -- predicate branch
      split at hc
      · exact absurd hc (by simp)
      · next sels hsels =>
        have hselsHigh : ∀ s ∈ sels, h.length ≤ s := by
          refine allSelsF_high fuel h1 [out1] sels hsels closed1 ?_
          intro a ha
          simp only [List.mem_singleton] at ha
          omega
        split at hc
        · exact absurd hc (by simp)
        · next h3 happ =>
          simp only [Option.some_inj, Prod.mk.injEq] at hc
          obtain ⟨rfl, rfl⟩ := hc
          have hf := applySelects_frame (n := h.length) fuel
            (groupPlansH plans) sels h1 h3 happ hn1 hselsHigh
          exact take_of_agreesBelow h h3 (agreesBelow_trans hag1 hf.1) hf.2

end DatasetApi

namespace DatasetApi

def egHeapC10 : Heap :=
  [.columnN "city" none, .litN "X", .binN "=" 0 1,
   .tableN "solar" none, .columnN "value" none,
   .selectN [4] [3] none]

def egPlanC10 : HPlan := ⟨"solar", "predicate", some 2⟩

def egResultC10 : Heap :=
  [.columnN "city" none, .litN "X", .binN "=" 0 1,
   .tableN "solar" none, .columnN "value" none,
   .selectN [4] [3] none,
   .columnN "value" none, .tableN "solar" none,
   .selectN [6] [7] (some 11),
   .columnN "city" (some "solar"), .litN "X", .binN "=" 9 10]

theorem apply_row_filter_plans_inputs_unchanged_witness :
    apply_row_filter_plansH 32 egHeapC10 5 [egPlanC10] =
      some (egResultC10, 8) ∧
    egResultC10.take egHeapC10.length = egHeapC10 :=
  ⟨by decide, apply_row_filter_plans_inputs_unchanged 32 egHeapC10 5
    [egPlanC10] egResultC10 8 (by decide)⟩

end DatasetApi
